import Mathlib

/-
Verification of the subtitle/merge core of the WhisperSpeechRecognition
repository (src/subtitle.rs, src/srt_merger.rs, src/manual_cut.rs,
src/app_logic.rs).

Modelling conventions:
- Rust `f64` time values are modelled as `ℚ` (the spec's TimeValue is a
  real number of seconds; every claim under scrutiny concerns values of
  millisecond granularity, where `f64` arithmetic and the rational model
  agree).
- Rust strings are modelled as `List Char`; file paths stay `String`.
- The file system is modelled as a function `String → Option (List Char)`
  from paths to contents.
- `anyhow::Error` values carry only messages, which no caller inspects;
  errors are modelled as `Except Unit`.
-/

/-! ### Character and numeral helpers -/

/-- Value of a decimal digit character, as in the usual `c as u32 - 48`. -/
def digitVal (c : Char) : ℕ := c.toNat - 48

/-- Decimal digit character for `d` (used for rendering numerals). -/
def digitChar (d : ℕ) : Char := Char.ofNat (48 + d)

/-- One step of the accumulating decimal reader: `10*acc + d`. -/
def digitStep (acc : ℕ) (c : Char) : ℕ := 10 * acc + digitVal c

/-- Decimal value of a digit string. -/
def parseNat (l : List Char) : ℕ := l.foldl digitStep 0

/-- Decimal numeral of `n`, most significant digit first; fuel-structured so
that it evaluates by kernel reduction. -/
def natToCharsAux : ℕ → ℕ → List Char
  | 0, _ => []
  | fuel + 1, n => if n = 0 then [] else natToCharsAux fuel (n / 10) ++ [digitChar (n % 10)]

/-- Decimal numeral of `n`, as printed by Rust's `{}` formatting. -/
def natToChars (n : ℕ) : List Char := if n = 0 then ['0'] else natToCharsAux (n + 1) n

/-- Left pad with zeros to width `w`, as in Rust's `{:0w}` formatting. -/
def padZeros (w : ℕ) (l : List Char) : List Char := List.replicate (w - l.length) '0' ++ l

/-- Rust `str::trim`, restricted to ASCII whitespace (the only whitespace the
repository's data can contain). -/
def trimChars (l : List Char) : List Char :=
  ((l.dropWhile Char.isWhitespace).reverse.dropWhile Char.isWhitespace).reverse

/-- Digit part of Rust `usize::from_str`: one or more digits (overflow is not
modelled). -/
def parseUsizeCore (t : List Char) : Option ℕ :=
  if t ≠ [] ∧ t.all Char.isDigit then some (parseNat t) else none

/-- Rust `usize::from_str`, dispatching on an optional leading sign. -/
def parseUsize (l : List Char) : Option ℕ :=
  match l with
  | c :: t => if c = '+' then parseUsizeCore t else parseUsizeCore (c :: t)
  | [] => parseUsizeCore []

/-- Shared body of `parseDecimal`: digits with an optional fractional part. -/
def parseDecimalCore (t : List Char) : Option ℚ :=
  match List.splitOnP (fun c => c == '.') t with
  | [ip] => if ip ≠ [] ∧ ip.all Char.isDigit then some ((parseNat ip : ℚ)) else none
  | [ip, fp] =>
    if (ip ≠ [] ∨ fp ≠ []) ∧ ip.all Char.isDigit ∧ fp.all Char.isDigit then
      some ((parseNat ip : ℚ) + (parseNat fp : ℚ) / 10 ^ fp.length)
    else none
  | _ => none

/-- Rust `f64::from_str` on the decimal fragment the repository feeds it:
optional sign, integer digits, optional fractional digits (exponents,
`inf` and `nan` spellings never occur in the repository's data and are not
modelled). -/
def parseDecimal (s : List Char) : Option ℚ :=
  match s with
  | c :: t =>
    if c = '+' then parseDecimalCore t
    else if c = '-' then (parseDecimalCore t).map Neg.neg
    else parseDecimalCore (c :: t)
  | [] => parseDecimalCore []

/-! ### Time codec (src/subtitle.rs lines 25-48, src/srt_merger.rs lines 15-53) -/

/-- Rust `a % b` (`fmod`) for the nonnegative operands used by the
repository: `a - b * ⌊a / b⌋`. -/
def fmod (a b : ℚ) : ℚ := a - b * (⌊a / b⌋ : ℤ)

/-- The `HH:MM:SS,mmm` character string with the four given components. -/
def srtTimeChars (h m s ms : ℕ) : List Char :=
  padZeros 2 (natToChars h) ++ ':' :: padZeros 2 (natToChars m) ++ ':' ::
    padZeros 2 (natToChars s) ++ ',' :: padZeros 3 (natToChars ms)

/-- `SubtitleEntry::format_srt_time` / `srt_merger::format_srt_time`: floor the
hour, minute, second and millisecond components and zero-pad them.
`.floor() as u32` is `Int.toNat ∘ Int.floor` for the nonnegative values the
program produces (both clamp negatives to zero). -/
def format_srt_time (seconds : ℚ) : List Char :=
  let hours := (⌊seconds / 3600⌋).toNat
  let minutes := (⌊fmod seconds 3600 / 60⌋).toNat
  let secs := (⌊fmod seconds 60⌋).toNat
  let millis := (⌊fmod seconds 1 * 1000⌋).toNat
  srtTimeChars hours minutes secs millis

/-- `SubtitleEntry::parse_srt_time` (src/subtitle.rs): split on `:` and `,`,
require exactly four components, parse each as `f64` and combine. -/
def parse_srt_time (time_str : List Char) : Except Unit ℚ :=
  match List.splitOnP (fun c => c == ':' || c == ',') time_str with
  | [p0, p1, p2, p3] =>
    match parseDecimal p0, parseDecimal p1, parseDecimal p2, parseDecimal p3 with
    | some hours, some minutes, some seconds, some millis =>
      .ok (hours * 3600 + minutes * 60 + seconds + millis / 1000)
    | _, _, _, _ => .error ()
  | _ => .error ()

/-- `srt_merger::parse_srt_time`: trim, split on `,` into exactly two parts,
split the first on `:` into exactly three, parse each trimmed component as
`f64` and combine. -/
def srtm_parse_srt_time (time_str : List Char) : Except Unit ℚ :=
  let t := trimChars time_str
  if t = [] then .error ()
  else
    match List.splitOnP (fun c => c == ',') t with
    | [p0, p1] =>
      match List.splitOnP (fun c => c == ':') p0 with
      | [t0, t1, t2] =>
        match parseDecimal (trimChars t0), parseDecimal (trimChars t1),
            parseDecimal (trimChars t2), parseDecimal (trimChars p1) with
        | some hours, some minutes, some seconds, some millis =>
          .ok (hours * 3600 + minutes * 60 + seconds + millis / 1000)
        | _, _, _, _ => .error ()
      | _ => .error ()
    | _ => .error ()

/-! ### Subtitle track model (src/subtitle.rs) -/

/-- `SubtitleEntry` (src/subtitle.rs): index, start/end in seconds, text. -/
structure SubtitleEntry where
  index : ℕ
  start_time : ℚ
  end_time : ℚ
  text : List Char
deriving DecidableEq

/-- Rust `str::contains("-->")`. -/
def containsArrow (l : List Char) : Bool := decide (['-', '-', '>'] <:+: l)

/-- Rust `str::split("-->")`: leftmost, non-overlapping occurrences. -/
def splitArrow : List Char → List (List Char)
  | '-' :: '-' :: '>' :: rest => [] :: splitArrow rest
  | c :: rest => List.modifyHead (List.cons c) (splitArrow rest)
  | [] => [[]]

/-- Rust `str::lines` on the repository's data: split on a newline, without a
trailing empty line (carriage returns do not occur in the data and are not
modelled). -/
def rustLines (s : List Char) : List (List Char) :=
  let ls := List.splitOnP (fun c => c == '\n') s
  if ls.getLast? = some [] ∧ ls.length > 1 ∨ s = [] then ls.dropLast else ls

/-- `parse_srt_content` (src/subtitle.rs lines 69-126), on the line list of the
input: skip blanks, read an index line, then require the next line to contain
`-->` and split into exactly two timestamps (otherwise skip that line and
rescan), parse both timestamps propagating failure, then take the non-blank
text lines. -/
def parse_srt_content_lines : List (List Char) → Except Unit (List SubtitleEntry)
  | [] => .ok []
  | line :: rest =>
    if (trimChars line).isEmpty then parse_srt_content_lines rest
    else
      match parseUsize (trimChars line) with
      | none => parse_srt_content_lines rest
      | some index =>
        match rest with
        | [] => .ok []
        | tline :: rest2 =>
          let time_line := trimChars tline
          if ¬ containsArrow time_line then parse_srt_content_lines rest2
          else
            match (splitArrow time_line).map trimChars with
            | [t0, t1] =>
              match parse_srt_time t0, parse_srt_time t1 with
              | .ok start_time, .ok end_time =>
                let text_lines := (rest2.takeWhile fun x => ¬ (trimChars x).isEmpty).map trimChars
                let rest3 := rest2.dropWhile fun x => ¬ (trimChars x).isEmpty
                match parse_srt_content_lines rest3 with
                | .ok entries =>
                  .ok (⟨index, start_time, end_time, (text_lines.intersperse ['\n']).flatten⟩ :: entries)
                | .error e => .error e
              | .error e, _ => .error e
              | _, .error e => .error e
            | _ => parse_srt_content_lines rest2
termination_by l => l.length
decreasing_by
  all_goals simp
  all_goals try omega
  all_goals
    have h := (List.dropWhile_sublist (l := rest2) fun x => !decide (trimChars x = [])).length_le
  all_goals omega

/-- `parse_srt_content` on raw content. -/
def parse_srt_content (content : List Char) : Except Unit (List SubtitleEntry) :=
  parse_srt_content_lines (rustLines content)

/-- `reindex_subtitles` (src/subtitle.rs lines 141-145): index becomes the
1-based array position. -/
def reindex_subtitles (subtitles : List SubtitleEntry) : List SubtitleEntry :=
  subtitles.enum.map fun p => { p.2 with index := p.1 + 1 }

/-- Comparison used by `sort_subtitles_by_time`: `partial_cmp` by start time
(total on the rational model). -/
def startLe (a b : SubtitleEntry) : Prop := a.start_time ≤ b.start_time

instance : DecidableRel startLe := fun a b =>
  inferInstanceAs (Decidable (a.start_time ≤ b.start_time))

/-- `sort_subtitles_by_time` (src/subtitle.rs lines 148-152): Rust's stable
`sort_by` modelled by the stable insertion sort. -/
def sort_subtitles_by_time (subtitles : List SubtitleEntry) : List SubtitleEntry :=
  subtitles.insertionSort startLe

/-- `remove_subtitles_in_range` (src/subtitle.rs lines 155-164): retain the
entries with `end_time <= start_time || start_time >= end_time`. -/
def remove_subtitles_in_range (subtitles : List SubtitleEntry) (start_time end_time : ℚ) :
    List SubtitleEntry :=
  subtitles.filter fun sub => decide (sub.end_time ≤ start_time ∨ end_time ≤ sub.start_time)

/-- `insert_subtitle` (src/subtitle.rs lines 167-178): insert before the first
entry whose start exceeds the new entry's start (append if none). -/
def insert_subtitle (subtitles : List SubtitleEntry) (new_subtitle : SubtitleEntry) :
    List SubtitleEntry :=
  match subtitles with
  | [] => [new_subtitle]
  | sub :: rest =>
    if new_subtitle.start_time < sub.start_time then new_subtitle :: sub :: rest
    else sub :: insert_subtitle rest new_subtitle

/-- `insert_subtitles` (src/subtitle.rs lines 181-192): insert each, then one
final sort and reindex. -/
def insert_subtitles (subtitles : List SubtitleEntry) (new_subtitles : List SubtitleEntry) :
    List SubtitleEntry :=
  reindex_subtitles (sort_subtitles_by_time (new_subtitles.foldl insert_subtitle subtitles))

/-! ### Fragment parser and merge engine (src/srt_merger.rs) -/

/-- `SubtitleEntry` (src/srt_merger.rs lines 6-12): times kept as raw strings,
text as a list of lines. -/
structure MergEntry where
  index : ℕ
  start_time : List Char
  end_time : List Char
  text : List (List Char)
deriving DecidableEq

/-- File system: map from path to contents, `none` when the file is absent. -/
def FileSys : Type := String → Option (List Char)

/-- Loop body of `srt_merger::parse_srt_file` (lines 56-122): a line-driven
state machine over an optional current entry; a blank line flushes the current
entry when both times were seen, an integer line starts a new entry, a `-->`
line records the two trimmed times when both are non-blank, and any other line
is text once a start time exists. -/
def srtm_parse_lines : List (List Char) → Option MergEntry → List MergEntry → List MergEntry
  | [], cur, acc =>
    match cur with
    | some e => if e.start_time ≠ [] ∧ e.end_time ≠ [] then acc ++ [e] else acc
    | none => acc
  | l :: rest, cur, acc =>
    let line := trimChars l
    if line.isEmpty then
      match cur with
      | some e =>
        if e.start_time ≠ [] ∧ e.end_time ≠ [] then srtm_parse_lines rest none (acc ++ [e])
        else srtm_parse_lines rest none acc
      | none => srtm_parse_lines rest none acc
    else
      match parseUsize line with
      | some index => srtm_parse_lines rest (some ⟨index, [], [], []⟩) acc
      | none =>
        if containsArrow line then
          match splitArrow line with
          | [rawStart, rawEnd] =>
            match cur with
            | some e =>
              let s := trimChars rawStart
              let en := trimChars rawEnd
              if s ≠ [] ∧ en ≠ [] then
                srtm_parse_lines rest (some { e with start_time := s, end_time := en }) acc
              else srtm_parse_lines rest (some e) acc
            | none => srtm_parse_lines rest none acc
          | _ => srtm_parse_lines rest cur acc
        else
          match cur with
          | some e =>
            if e.start_time ≠ [] then srtm_parse_lines rest (some { e with text := e.text ++ [line] }) acc
            else srtm_parse_lines rest (some e) acc
          | none => srtm_parse_lines rest none acc

/-- `srt_merger::parse_srt_file`: read the file and run the state machine;
only `File::open` can fail. -/
def srtm_parse_srt_file (fs : FileSys) (path : String) : Except Unit (List MergEntry) :=
  match fs path with
  | none => .error ()
  | some content => .ok (srtm_parse_lines (rustLines content) none [])

/-- Outcome of a call to `merge_srt_files`: a Rust panic (index out of
bounds), an `Err` return, or an `Ok` value. -/
inductive MergeRes (α : Type) where
  | panic : MergeRes α
  | err : MergeRes α
  | ok : α → MergeRes α
deriving DecidableEq

/-- Inner loop of `merge_srt_files` (lines 142-160) for one fragment: parse
both recorded times (propagating failure), add the offset, format back to
strings and assign consecutive global indices. -/
def merge_entries_of_file (time_offset : ℚ) (gidx : ℕ) :
    List MergEntry → Except Unit (List MergEntry × ℕ)
  | [] => .ok ([], gidx)
  | e :: rest =>
    match srtm_parse_srt_time e.start_time, srtm_parse_srt_time e.end_time with
    | .ok start_seconds, .ok end_seconds =>
      match merge_entries_of_file time_offset (gidx + 1) rest with
      | .ok (es, g) =>
        .ok (⟨gidx, format_srt_time (start_seconds + time_offset),
          format_srt_time (end_seconds + time_offset), e.text⟩ :: es, g)
      | .error u => .error u
    | .error u, _ => .error u
    | _, .error u => .error u

/-- Outer loop of `merge_srt_files` (lines 138-161): per fragment, parse the
file (an `Err` return), then index the offset table (a panic when out of
bounds), then shift the entries. -/
def merge_collect (fs : FileSys) (segment_start_times : List ℚ) :
    List String → ℕ → ℕ → MergeRes (List MergEntry × ℕ)
  | [], _, gidx => .ok ([], gidx)
  | f :: rest, segment_idx, gidx =>
    match srtm_parse_srt_file fs f with
    | .error _ => .err
    | .ok entries =>
      match segment_start_times.get? segment_idx with
      | none => .panic
      | some time_offset =>
        match merge_entries_of_file time_offset gidx entries with
        | .error _ => .err
        | .ok (es, gidx2) =>
          match merge_collect fs segment_start_times rest (segment_idx + 1) gidx2 with
          | .panic => .panic
          | .err => .err
          | .ok (es2, gidx3) => .ok (es ++ es2, gidx3)

/-- Sort key used at lines 164-168: re-parse the stored start string,
defaulting to 0 on failure (`unwrap_or(0.0)`). -/
def mergeKey (e : MergEntry) : ℚ :=
  match srtm_parse_srt_time e.start_time with
  | .ok q => q
  | .error _ => 0

/-- Comparison of merged entries by re-parsed start time. -/
def mergeLe (a b : MergEntry) : Prop := mergeKey a ≤ mergeKey b

instance : DecidableRel mergeLe := fun a b =>
  inferInstanceAs (Decidable (mergeKey a ≤ mergeKey b))

/-- Renumbering at lines 171-173. -/
def merge_reindex (entries : List MergEntry) : List MergEntry :=
  entries.enum.map fun p => { p.2 with index := p.1 + 1 }

/-- `merge_srt_files` (lines 125-188) up to, but not including, the write of
the output file: offset table `[0.0] ++ cut_points`, collect the shifted
fragments, stable sort by re-parsed start time, renumber. -/
def merge_core (fs : FileSys) (srt_files : List String) (cut_points : List ℚ) :
    MergeRes (List MergEntry) :=
  let segment_start_times := (0 : ℚ) :: cut_points
  match merge_collect fs segment_start_times srt_files 0 1 with
  | .panic => .panic
  | .err => .err
  | .ok (merged, _) => .ok (merge_reindex (merged.insertionSort mergeLe))

/-- Lines written for one merged entry (lines 178-184): the index, the time
line, the text lines, one blank line. -/
def srt_block_lines (e : MergEntry) : List (List Char) :=
  natToChars e.index :: (e.start_time ++ ' ' :: '-' :: '-' :: '>' :: ' ' :: e.end_time) ::
    e.text ++ [[]]

/-- All lines written by the output loop. -/
def merge_output_lines (entries : List MergEntry) : List (List Char) :=
  (entries.map srt_block_lines).flatten

/-- Contents of a file after a sequence of `writeln!` calls, each appending a
newline. -/
def render_lines (lines : List (List Char)) : List Char :=
  (lines.map fun l => l ++ ['\n']).flatten

/-- Point update of the file system. -/
def fs_update (fs : FileSys) (path : String) (v : List Char) : FileSys :=
  fun q => if q = path then some v else fs q

/-- `merge_srt_files` including its effect on the file system. `File::create`
truncates the output; each of the following `writeln!` calls can fail, which
the environment parameter `write_ok` decides per call. On the first failed
write the file retains exactly the previously written lines. -/
def merge_srt_files_run (fs : FileSys) (srt_files : List String) (cut_points : List ℚ)
    (output_path : String) (write_ok : ℕ → Bool) : FileSys × MergeRes Unit :=
  match merge_core fs srt_files cut_points with
  | .panic => (fs, .panic)
  | .err => (fs, .err)
  | .ok entries =>
    let ls := merge_output_lines entries
    match (List.range ls.length).find? fun k => ¬ write_ok k with
    | none => (fs_update fs output_path (render_lines ls), .ok ())
    | some k => (fs_update fs output_path (render_lines (ls.take k)), .err)

/-- Start, end and text of an entry (all fields except the index). -/
def entryData (e : SubtitleEntry) : ℚ × ℚ × List Char := (e.start_time, e.end_time, e.text)

/-- The `START --> END` line of an SRT block. -/
def timeLineChars (s e : List Char) : List Char :=
  s ++ ' ' :: '-' :: '-' :: '>' :: ' ' :: e

/-- Start time of a merged entry as re-parsed from its stored string
(`unwrap_or(0.0)` like the sort key). -/
def parsedStartQ (e : MergEntry) : ℚ := ((srtm_parse_srt_time e.start_time).toOption).getD 0

/-- End time of a merged entry as re-parsed from its stored string. -/
def parsedEndQ (e : MergEntry) : ℚ := ((srtm_parse_srt_time e.end_time).toOption).getD 0

/-- Times and text of a merged entry (ignoring the rewritten index). -/
def qview (e : MergEntry) : ℚ × ℚ × List (List Char) := (parsedStartQ e, parsedEndQ e, e.text)

/-- Both stored time strings of an entry parse to nonnegative
whole-millisecond values. -/
def entryTimesMs (e : MergEntry) : Prop :=
  (∃ n : ℕ, srtm_parse_srt_time e.start_time = .ok ((n : ℚ) / 1000)) ∧
  (∃ n : ℕ, srtm_parse_srt_time e.end_time = .ok ((n : ℚ) / 1000))

/-- The merge as the spec describes it: shift each fragment's entries by that
fragment's segment start offset — the sequence `0, cutPoint1, ...`,
positionally aligned — and concatenate. -/
def mergeFragmentsSpec (fs : FileSys) (srt_files : List String) (cut_points : List ℚ) :
    List (ℚ × ℚ × List (List Char)) :=
  ((srt_files.zip ((0 : ℚ) :: cut_points)).map fun fp =>
    match srtm_parse_srt_file fs fp.1 with
    | .ok es => es.map fun e => (parsedStartQ e + fp.2, parsedEndQ e + fp.2, e.text)
    | .error _ => []).flatten

/-- Line list of the one-entry test fragment `1 / 00:00:01,000 --> 00:00:02,000 / hi`. -/
def fragmentLines : List (List Char) :=
  [['1'], timeLineChars (format_srt_time 1) (format_srt_time 2), ['h', 'i']]

/-- File system in which every path holds the test fragment. -/
def fragmentFS : FileSys := fun _ => some (render_lines fragmentLines)

instance : IsTotal SubtitleEntry startLe := ⟨fun a b => le_total a.start_time b.start_time⟩

instance : IsTrans SubtitleEntry startLe :=
  ⟨fun _ _ _ hab hbc => le_trans (α := ℚ) hab hbc⟩

instance : IsTotal MergEntry mergeLe := ⟨fun a b => le_total (mergeKey a) (mergeKey b)⟩

instance : IsTrans MergEntry mergeLe :=
  ⟨fun _ _ _ hab hbc => le_trans (α := ℚ) hab hbc⟩

/-! ### Completion tracking and resume (src/app_logic.rs lines 457-542) -/

/-- Rust `Path::with_extension` on the repository's paths: replace what
follows the last dot of the file name, or append the extension when the name
has none. -/
def with_extension (p : String) (ext : String) : String :=
  let rev := p.toList.reverse
  let suf := rev.dropWhile fun c => ¬ (c == '.' ∨ c == '/')
  match suf with
  | '.' :: restRev => String.mk (restRev.reverse ++ '.' :: ext.toList)
  | _ => String.mk (p.toList ++ '.' :: ext.toList)

/-- Result fields of `WhisperApp::check_missing_subtitles`. -/
structure ResumeScan where
  missing_segments : List ℕ
  completed_segments : List ℕ
  can_resume : Bool
deriving DecidableEq

/-- `check_missing_subtitles` (lines 457-476): for each audio segment, the
index goes to `completed_segments` when the companion `.srt` file exists and
to `missing_segments` otherwise; `can_resume` when both lists are non-empty.
The file system is abstracted to the existence predicate `ex`. -/
def check_missing_subtitles (audio_segments : List String) (ex : String → Bool) : ResumeScan :=
  if audio_segments.isEmpty then ⟨[], [], false⟩
  else
    let completed := (audio_segments.enum.filter fun p =>
      ex (with_extension p.2 ("srt"))).map Prod.fst
    let missing := (audio_segments.enum.filter fun p =>
      ¬ ex (with_extension p.2 ("srt"))).map Prod.fst
    ⟨missing, completed, ¬ missing.isEmpty ∧ ¬ completed.isEmpty⟩

/-- Resume plan of `resume_recognition` (lines 479-542): the worker walks
`missing_segments` in stored order. -/
def resume_plan (scan : ResumeScan) : List ℕ := scan.missing_segments

/-- Segments dispatched by `resume_recognition`:
`missing_segments.iter().filter_map(|&i| audio_segments.get(i))`. -/
def resume_segments (scan : ResumeScan) (audio_segments : List String) : List String :=
  (resume_plan scan).filterMap fun i => audio_segments.get? i

/-! ### Flexible time parsing (src/manual_cut.rs lines 65-90) -/

/-- `parse_time_string`: split on `:`; one part is seconds, two parts are
minutes:seconds, three parts are hours:minutes:seconds, anything else is an
error; components go through `f64::from_str`. -/
def parse_time_string (time_str : List Char) : Except Unit ℚ :=
  match List.splitOnP (fun c => c == ':') time_str with
  | [p0] =>
    match parseDecimal p0 with
    | some s => .ok s
    | none => .error ()
  | [p0, p1] =>
    match parseDecimal p0, parseDecimal p1 with
    | some m, some s => .ok (m * 60 + s)
    | _, _ => .error ()
  | [p0, p1, p2] =>
    match parseDecimal p0, parseDecimal p1, parseDecimal p2 with
    | some h, some m, some s => .ok (h * 3600 + m * 60 + s)
    | _, _, _ => .error ()
  | _ => .error ()

/-! ### Helper lemmas: numerals -/

theorem digitChar_isDigit {d : ℕ} (h : d < 10) : (digitChar d).isDigit = true := by
  interval_cases d <;> decide

theorem digitVal_digitChar {d : ℕ} (h : d < 10) : digitVal (digitChar d) = d := by
  interval_cases d <;> decide

theorem isDigit_toNat {c : Char} (h : c.isDigit = true) : 48 ≤ c.toNat ∧ c.toNat ≤ 57 := by
  simp only [Char.isDigit, Bool.and_eq_true, decide_eq_true_eq] at h
  exact ⟨h.1, h.2⟩

theorem isDigit_ne {c : Char} (h : c.isDigit = true) {d : Char}
    (hd : d.toNat < 48 ∨ 57 < d.toNat) : c ≠ d := by
  intro he
  rcases isDigit_toNat h with ⟨h1, h2⟩
  rw [he] at h1 h2
  omega

theorem natToCharsAux_digits {fuel n : ℕ} : ∀ c ∈ natToCharsAux fuel n, c.isDigit = true := by
  induction fuel generalizing n with
  | zero => simp [natToCharsAux]
  | succ fuel ih =>
    intro c hc
    rw [natToCharsAux] at hc
    by_cases h0 : n = 0
    · simp [h0] at hc
    · rw [if_neg h0] at hc
      rcases List.mem_append.mp hc with h | h
      · exact ih c h
      · rcases List.mem_singleton.mp h with rfl
        exact digitChar_isDigit (Nat.mod_lt _ (by norm_num))

theorem natToChars_digits {n : ℕ} : ∀ c ∈ natToChars n, c.isDigit = true := by
  intro c hc
  rw [natToChars] at hc
  by_cases h0 : n = 0
  · simp [h0] at hc
    simp [hc]
  · rw [if_neg h0] at hc
    exact natToCharsAux_digits c hc

theorem natToChars_ne_nil {n : ℕ} : natToChars n ≠ [] := by
  rw [natToChars]
  by_cases h0 : n = 0
  · simp [h0]
  · rw [if_neg h0]
    rw [natToCharsAux, if_neg h0]
    simp

theorem padZeros_digits {w n : ℕ} : ∀ c ∈ padZeros w (natToChars n), c.isDigit = true := by
  intro c hc
  rcases List.mem_append.mp hc with h | h
  · rcases List.eq_of_mem_replicate h with rfl
    decide
  · exact natToChars_digits c h

theorem padZeros_ne_nil {w n : ℕ} : padZeros w (natToChars n) ≠ [] := by
  intro h
  rcases List.append_eq_nil.mp h with ⟨-, h2⟩
  exact natToChars_ne_nil h2

theorem parseNat_natToCharsAux {fuel n : ℕ} (h : n ≤ fuel) :
    parseNat (natToCharsAux fuel n) = n := by
  induction fuel generalizing n with
  | zero =>
    have : n = 0 := by omega
    simp [this, natToCharsAux, parseNat]
  | succ fuel ih =>
    rw [natToCharsAux]
    by_cases h0 : n = 0
    · simp [h0, parseNat]
    · rw [if_neg h0]
      rw [parseNat, List.foldl_append, ← parseNat, ih (by omega)]
      simp only [List.foldl_cons, List.foldl_nil, digitStep]
      rw [digitVal_digitChar (Nat.mod_lt _ (by norm_num))]
      omega

theorem parseNat_natToChars (n : ℕ) : parseNat (natToChars n) = n := by
  rw [natToChars]
  by_cases h0 : n = 0
  · simp [h0, parseNat, digitStep, digitVal]
  · rw [if_neg h0, parseNat_natToCharsAux (by omega)]

theorem foldl_digitStep_replicate_zero (k : ℕ) :
    List.foldl digitStep 0 (List.replicate k '0') = 0 := by
  induction k with
  | zero => simp
  | succ k ih => simpa [List.replicate_succ, digitStep, digitVal] using ih

theorem parseNat_padZeros (w n : ℕ) : parseNat (padZeros w (natToChars n)) = n := by
  rw [padZeros, parseNat, List.foldl_append, foldl_digitStep_replicate_zero, ← parseNat]
  exact parseNat_natToChars n

/-! ### Helper lemmas: splitting and trimming -/

theorem splitOnP_ne_nil (p : Char → Bool) (l : List Char) : List.splitOnP p l ≠ [] := by
  induction l with
  | nil => simp [List.splitOnP_nil]
  | cons c t ih =>
    rw [List.splitOnP_cons]
    by_cases h : p c
    · simp [h]
    · simp only [h]
      cases hs : List.splitOnP p t with
      | nil => exact absurd hs ih
      | cons a b => simp

theorem splitOnP_eq_self {p : Char → Bool} {l : List Char}
    (h : ∀ x ∈ l, p x = false) : List.splitOnP p l = [l] := by
  induction l with
  | nil => simp [List.splitOnP_nil]
  | cons c t ih =>
    rw [List.splitOnP_cons, h c (by simp), ih fun x hx => h x (by simp [hx])]
    simp

theorem splitOnP_append_sep {p : Char → Bool} {a : List Char} {c : Char} (b : List Char)
    (ha : ∀ x ∈ a, p x = false) (hc : p c = true) :
    List.splitOnP p (a ++ c :: b) = a :: List.splitOnP p b := by
  induction a with
  | nil => simp [List.splitOnP_cons, hc]
  | cons d t ih =>
    rw [List.cons_append, List.splitOnP_cons, ha d (by simp),
      ih fun x hx => ha x (by simp [hx])]
    simp

theorem dropWhile_eq_self_of_all {p : Char → Bool} {l : List Char}
    (h : ∀ x ∈ l, p x = false) : l.dropWhile p = l := by
  cases l with
  | nil => rfl
  | cons c t => rw [List.dropWhile_cons, h c (by simp)]; simp

theorem trimChars_eq_self {l : List Char}
    (h : ∀ x ∈ l, x.isWhitespace = false) : trimChars l = l := by
  rw [trimChars, dropWhile_eq_self_of_all h,
    dropWhile_eq_self_of_all fun x hx => h x (List.mem_reverse.mp hx), List.reverse_reverse]

theorem ws_toNat {c : Char} (h : c.isWhitespace = true) :
    c.toNat = 32 ∨ c.toNat = 9 ∨ c.toNat = 13 ∨ c.toNat = 10 := by
  simp only [Char.isWhitespace, Bool.or_eq_true, decide_eq_true_eq] at h
  rcases h with ((h | h) | h) | h <;> subst h <;> decide

theorem isDigit_not_ws {c : Char} (h : c.isDigit = true) : c.isWhitespace = false := by
  rcases isDigit_toNat h with ⟨h1, h2⟩
  by_contra hw
  rw [Bool.not_eq_false] at hw
  rcases ws_toNat hw with h' | h' | h' | h' <;> omega

/-! ### Helper lemmas: parsing digit strings -/

theorem all_eq_true_of_forall {l : List Char} {p : Char → Bool}
    (h : ∀ c ∈ l, p c = true) : l.all p = true := List.all_eq_true.mpr h

theorem parseDecimalCore_digits {l : List Char} (hne : l ≠ [])
    (h : ∀ c ∈ l, c.isDigit = true) : parseDecimalCore l = some ((parseNat l : ℚ)) := by
  rw [parseDecimalCore]
  rw [splitOnP_eq_self fun x hx => by
    simpa using isDigit_ne (h x hx) (d := '.') (by decide)]
  show (if l ≠ [] ∧ l.all Char.isDigit = true then some ((parseNat l : ℚ)) else none) =
    some ((parseNat l : ℚ))
  rw [if_pos ⟨hne, all_eq_true_of_forall h⟩]

theorem parseDecimal_digits {l : List Char} (hne : l ≠ [])
    (h : ∀ c ∈ l, c.isDigit = true) : parseDecimal l = some ((parseNat l : ℚ)) := by
  cases l with
  | nil => exact absurd rfl hne
  | cons c t =>
    have hc := h c (by simp)
    rw [parseDecimal]
    rw [if_neg (isDigit_ne hc (d := '+') (by decide)),
      if_neg (isDigit_ne hc (d := '-') (by decide))]
    exact parseDecimalCore_digits hne h

theorem parseUsize_digits {l : List Char} (hne : l ≠ [])
    (h : ∀ c ∈ l, c.isDigit = true) : parseUsize l = some (parseNat l) := by
  cases l with
  | nil => exact absurd rfl hne
  | cons c t =>
    have hc := h c (by simp)
    rw [parseUsize]
    rw [if_neg (isDigit_ne hc (d := '+') (by decide))]
    rw [parseUsizeCore, if_pos ⟨hne, all_eq_true_of_forall h⟩]

theorem parseUsize_natToChars (n : ℕ) : parseUsize (natToChars n) = some n := by
  rw [parseUsize_digits natToChars_ne_nil natToChars_digits, parseNat_natToChars]

/-! ### Helper lemmas: the arrow separator -/

theorem splitArrow_eq_self {l : List Char} (h : ∀ c ∈ l, c ≠ '-') : splitArrow l = [l] := by
  induction l with
  | nil => rfl
  | cons c t ih =>
    rw [splitArrow.eq_2 c t fun r hc _ => absurd hc (h c (by simp)),
      ih fun x hx => h x (by simp [hx])]
    rfl

theorem splitArrow_append {a : List Char} (b : List Char) (ha : ∀ c ∈ a, c ≠ '-') :
    splitArrow (a ++ '-' :: '-' :: '>' :: b) = a :: splitArrow b := by
  induction a with
  | nil => exact splitArrow.eq_1 b
  | cons c t ih =>
    rw [List.cons_append,
      splitArrow.eq_2 c _ fun r hc _ => absurd hc (ha c (by simp)),
      ih fun x hx => ha x (by simp [hx])]
    rfl

theorem containsArrow_append (x y : List Char) :
    containsArrow (x ++ '-' :: '-' :: '>' :: y) = true := by
  rw [containsArrow, decide_eq_true_eq]
  exact ⟨x, y, by simp⟩

theorem containsArrow_false {l : List Char} (h : ∀ c ∈ l, c ≠ '-') :
    containsArrow l = false := by
  rw [containsArrow, decide_eq_false_iff_not]
  intro hin
  exact h '-' (hin.subset (by simp)) rfl

/-! ### Helper lemmas: the time codec on millisecond-granular values -/

theorem floor_q_div_toNat (r d : ℕ) : (⌊(r : ℚ) / ((d : ℕ) : ℚ)⌋).toNat = r / d := by
  rw [Int.floor_toNat, Nat.floor_div_nat, Nat.floor_natCast]

theorem fmod_ms_gen (n K : ℕ) :
    fmod ((n : ℚ) / 1000) ((K : ℕ) : ℚ) = ((n % (1000 * K) : ℕ) : ℚ) / 1000 := by
  rw [fmod, div_div]
  have hcast : ((1000 : ℚ) * ((K : ℕ) : ℚ)) = ((1000 * K : ℕ) : ℚ) := by push_cast; ring
  rw [hcast, Rat.floor_natCast_div_natCast, ← Int.natCast_div]
  set X := n / (1000 * K) with hX
  set R := n % (1000 * K) with hR
  have hdm : ((1000 * K * X + R : ℕ) : ℚ) = (n : ℚ) :=
    Nat.cast_inj.mpr (Nat.div_add_mod n (1000 * K))
  have hcomp : (((X : ℕ) : ℤ) : ℚ) = ((X : ℕ) : ℚ) := by push_cast; rfl
  rw [hcomp]
  push_cast at hdm
  linarith [hdm]

theorem format_srt_time_ms (n : ℕ) :
    format_srt_time ((n : ℚ) / 1000) =
      srtTimeChars (n / 3600000) (n % 3600000 / 60000) (n % 60000 / 1000) (n % 1000) := by
  have hh : (⌊(n : ℚ) / 1000 / (3600 : ℚ)⌋).toNat = n / 3600000 := by
    have h1 : ((n : ℚ) / 1000 / (3600 : ℚ)) = (n : ℚ) / ((3600000 : ℕ) : ℚ) := by
      push_cast; ring
    rw [h1, floor_q_div_toNat]
  have hm : (⌊fmod ((n : ℚ) / 1000) 3600 / (60 : ℚ)⌋).toNat = n % 3600000 / 60000 := by
    have h36 : ((3600 : ℚ)) = ((3600 : ℕ) : ℚ) := by norm_num
    rw [h36, fmod_ms_gen]
    have h2 : (((n % (1000 * 3600) : ℕ)) : ℚ) / 1000 / (60 : ℚ) =
        ((n % (1000 * 3600) : ℕ) : ℚ) / ((60000 : ℕ) : ℚ) := by push_cast; ring
    rw [h2, floor_q_div_toNat]
  have hs : (⌊fmod ((n : ℚ) / 1000) 60⌋).toNat = n % 60000 / 1000 := by
    have h60 : ((60 : ℚ)) = ((60 : ℕ) : ℚ) := by norm_num
    rw [h60, fmod_ms_gen]
    have h2 : (((n % (1000 * 60) : ℕ)) : ℚ) / 1000 =
        ((n % (1000 * 60) : ℕ) : ℚ) / ((1000 : ℕ) : ℚ) := by norm_num
    rw [h2, floor_q_div_toNat]
  have hms : (⌊fmod ((n : ℚ) / 1000) 1 * 1000⌋).toNat = n % 1000 := by
    have h1 : ((1 : ℚ)) = ((1 : ℕ) : ℚ) := by norm_num
    rw [h1, fmod_ms_gen]
    rw [div_mul_cancel₀ _ (by norm_num : (1000 : ℚ) ≠ 0)]
    simp
    omega
  simp only [format_srt_time]
  rw [hh, hm, hs, hms]

theorem digit_sep4_false {c : Char} (h : c.isDigit = true) :
    ((c == ':') || (c == ',')) = false := by
  rw [Bool.or_eq_false_iff, beq_eq_false_iff_ne, beq_eq_false_iff_ne]
  exact ⟨isDigit_ne h (by decide), isDigit_ne h (by decide)⟩

theorem digit_comma_false {c : Char} (h : c.isDigit = true) : (c == ',') = false := by
  rw [beq_eq_false_iff_ne]
  exact isDigit_ne h (by decide)

theorem digit_colon_false {c : Char} (h : c.isDigit = true) : (c == ':') = false := by
  rw [beq_eq_false_iff_ne]
  exact isDigit_ne h (by decide)

theorem splitOnP4_srtTimeChars (h m s ms : ℕ) :
    List.splitOnP (fun c => c == ':' || c == ',') (srtTimeChars h m s ms) =
      [padZeros 2 (natToChars h), padZeros 2 (natToChars m),
        padZeros 2 (natToChars s), padZeros 3 (natToChars ms)] := by
  rw [srtTimeChars]
  simp only [List.cons_append, List.append_assoc]
  rw [splitOnP_append_sep _ (fun x hx => digit_sep4_false (padZeros_digits x hx)) (by decide)]
  rw [splitOnP_append_sep _ (fun x hx => digit_sep4_false (padZeros_digits x hx)) (by decide)]
  rw [splitOnP_append_sep _ (fun x hx => digit_sep4_false (padZeros_digits x hx)) (by decide)]
  rw [splitOnP_eq_self fun x hx => digit_sep4_false (padZeros_digits x hx)]

theorem parse_srt_time_srtTimeChars (h m s ms : ℕ) :
    parse_srt_time (srtTimeChars h m s ms) =
      .ok ((h : ℚ) * 3600 + (m : ℚ) * 60 + (s : ℚ) + (ms : ℚ) / 1000) := by
  rw [parse_srt_time, splitOnP4_srtTimeChars]
  simp only [parseDecimal_digits padZeros_ne_nil padZeros_digits, parseNat_padZeros]

theorem srtTimeChars_mem {h m s ms : ℕ} {c : Char} (hc : c ∈ srtTimeChars h m s ms) :
    c.isDigit = true ∨ c = ':' ∨ c = ',' := by
  rw [srtTimeChars] at hc
  simp only [List.cons_append, List.append_assoc, List.mem_append, List.mem_cons] at hc
  rcases hc with h1 | h1 | h1 | h1 | h1 | h1 | h1
  · exact Or.inl (padZeros_digits _ h1)
  · exact Or.inr (Or.inl h1)
  · exact Or.inl (padZeros_digits _ h1)
  · exact Or.inr (Or.inl h1)
  · exact Or.inl (padZeros_digits _ h1)
  · exact Or.inr (Or.inr h1)
  · exact Or.inl (padZeros_digits _ h1)

theorem srtTimeChars_not_ws {h m s ms : ℕ} :
    ∀ c ∈ srtTimeChars h m s ms, c.isWhitespace = false := by
  intro c hc
  rcases srtTimeChars_mem hc with h1 | h1 | h1
  · exact isDigit_not_ws h1
  · rw [h1]; decide
  · rw [h1]; decide

theorem srtTimeChars_ne_nil {h m s ms : ℕ} : srtTimeChars h m s ms ≠ [] := by
  rw [srtTimeChars]
  simp [padZeros_ne_nil]

theorem srtm_parse_srt_time_srtTimeChars (h m s ms : ℕ) :
    srtm_parse_srt_time (srtTimeChars h m s ms) =
      .ok ((h : ℚ) * 3600 + (m : ℚ) * 60 + (s : ℚ) + (ms : ℚ) / 1000) := by
  have hsplit2 : List.splitOnP (fun c => c == ',') (srtTimeChars h m s ms) =
      [padZeros 2 (natToChars h) ++ ':' :: (padZeros 2 (natToChars m) ++ ':' ::
        padZeros 2 (natToChars s)), padZeros 3 (natToChars ms)] := by
    rw [srtTimeChars]
    rw [show padZeros 2 (natToChars h) ++ ':' :: padZeros 2 (natToChars m) ++ ':' ::
        padZeros 2 (natToChars s) ++ ',' :: padZeros 3 (natToChars ms) =
        (padZeros 2 (natToChars h) ++ ':' :: (padZeros 2 (natToChars m) ++ ':' ::
        padZeros 2 (natToChars s))) ++ ',' :: padZeros 3 (natToChars ms) from by
      simp [List.cons_append, List.append_assoc]]
    rw [splitOnP_append_sep _ (fun x hx => by
      simp only [List.mem_append, List.mem_cons] at hx
      rcases hx with h1 | h1 | h1 | h1 | h1
      · exact digit_comma_false (padZeros_digits x h1)
      · rw [h1]; decide
      · exact digit_comma_false (padZeros_digits x h1)
      · rw [h1]; decide
      · exact digit_comma_false (padZeros_digits x h1)) (by decide)]
    rw [splitOnP_eq_self fun x hx => digit_comma_false (padZeros_digits x hx)]
  have hsplit3 : List.splitOnP (fun c => c == ':')
      (padZeros 2 (natToChars h) ++ ':' :: (padZeros 2 (natToChars m) ++ ':' ::
        padZeros 2 (natToChars s))) =
      [padZeros 2 (natToChars h), padZeros 2 (natToChars m), padZeros 2 (natToChars s)] := by
    rw [splitOnP_append_sep _ (fun x hx => digit_colon_false (padZeros_digits x hx)) (by decide)]
    rw [splitOnP_append_sep _ (fun x hx => digit_colon_false (padZeros_digits x hx)) (by decide)]
    rw [splitOnP_eq_self fun x hx => digit_colon_false (padZeros_digits x hx)]
  rw [srtm_parse_srt_time]
  simp only [trimChars_eq_self srtTimeChars_not_ws]
  rw [if_neg srtTimeChars_ne_nil]
  simp only [hsplit2, hsplit3,
    trimChars_eq_self fun x hx => isDigit_not_ws (padZeros_digits x hx),
    parseDecimal_digits padZeros_ne_nil padZeros_digits, parseNat_padZeros]

theorem srt_ms_sum (n : ℕ) :
    ((n / 3600000 : ℕ) : ℚ) * 3600 + ((n % 3600000 / 60000 : ℕ) : ℚ) * 60 +
      ((n % 60000 / 1000 : ℕ) : ℚ) + ((n % 1000 : ℕ) : ℚ) / 1000 = (n : ℚ) / 1000 := by
  have key : 3600000 * (n / 3600000) + 60000 * (n % 3600000 / 60000) +
      1000 * (n % 60000 / 1000) + n % 1000 = n := by omega
  set a := n / 3600000 with ha
  set b := n % 3600000 / 60000 with hb
  set c := n % 60000 / 1000 with hc
  set d := n % 1000 with hd
  have keyq : ((3600000 * a + 60000 * b + 1000 * c + d : ℕ) : ℚ) = (n : ℚ) :=
    Nat.cast_inj.mpr key
  push_cast at keyq
  linarith [keyq]

/-- Round trip through the subtitle.rs codec for whole-millisecond values. -/
theorem parse_format_roundtrip (n : ℕ) :
    parse_srt_time (format_srt_time ((n : ℚ) / 1000)) = .ok ((n : ℚ) / 1000) := by
  rw [format_srt_time_ms, parse_srt_time_srtTimeChars, srt_ms_sum]

/-- Round trip through the srt_merger.rs codec for whole-millisecond values. -/
theorem srtm_parse_format_roundtrip (n : ℕ) :
    srtm_parse_srt_time (format_srt_time ((n : ℚ) / 1000)) = .ok ((n : ℚ) / 1000) := by
  rw [format_srt_time_ms, srtm_parse_srt_time_srtTimeChars, srt_ms_sum]

/-! ### Helper lemmas: sorting and reindexing -/

theorem reindex_subtitles_length (l : List SubtitleEntry) :
    (reindex_subtitles l).length = l.length := by
  simp [reindex_subtitles]

theorem reindex_subtitles_getElem (l : List SubtitleEntry) (i : ℕ)
    (hi : i < (reindex_subtitles l).length) :
    (reindex_subtitles l)[i] =
      { l.get ⟨i, by simpa [reindex_subtitles_length] using hi⟩ with index := i + 1 } := by
  simp [reindex_subtitles]

theorem reindex_subtitles_pairwise {l : List SubtitleEntry} (h : l.Pairwise startLe) :
    (reindex_subtitles l).Pairwise startLe := by
  rw [reindex_subtitles, List.pairwise_map]
  have h2 : List.Pairwise (fun a b : ℕ × SubtitleEntry => startLe a.2 b.2) l.enum := by
    rw [← List.pairwise_map (f := Prod.snd), List.enum_map_snd]
    exact h
  exact h2.imp fun hab => hab

theorem reindex_subtitles_map_entryData (l : List SubtitleEntry) :
    (reindex_subtitles l).map entryData = l.map entryData := by
  rw [reindex_subtitles, List.map_map]
  have : (entryData ∘ fun p : ℕ × SubtitleEntry => { p.2 with index := p.1 + 1 }) =
      entryData ∘ Prod.snd := by
    funext p
    rfl
  rw [this, ← List.map_map, List.enum_map_snd]

theorem insert_subtitle_perm (l : List SubtitleEntry) (e : SubtitleEntry) :
    (insert_subtitle l e).Perm (e :: l) := by
  induction l with
  | nil => simp [insert_subtitle]
  | cons s t ih =>
    rw [insert_subtitle]
    by_cases hc : e.start_time < s.start_time
    · rw [if_pos hc]
    · rw [if_neg hc]
      exact (ih.cons s).trans (List.Perm.swap e s t)

theorem foldl_insert_subtitle_perm (new : List SubtitleEntry) (l : List SubtitleEntry) :
    (new.foldl insert_subtitle l).Perm (l ++ new) := by
  induction new generalizing l with
  | nil => simp
  | cons e t ih =>
    rw [List.foldl_cons]
    refine (ih (insert_subtitle l e)).trans ?_
    refine (List.Perm.append_right t (insert_subtitle_perm l e)).trans ?_
    exact List.perm_middle.symm

/-! ### C3 and C2 -/

/-- C3: for every whole-millisecond time value `t = n/1000` with
`t ≤ 359999.999` seconds, `parse_srt_time (format_srt_time t) = Ok t`:
formatting truncates at milliseconds and parsing recovers the value
exactly. -/
theorem C3_format_parse_roundtrip (n : ℕ) (_hn : n ≤ 359999999) :
    parse_srt_time (format_srt_time ((n : ℚ) / 1000)) = .ok ((n : ℚ) / 1000) :=
  parse_format_roundtrip n

theorem C3_format_parse_roundtrip_witness :
    3661001 ≤ 359999999 ∧
      parse_srt_time (format_srt_time ((3661001 : ℚ) / 1000)) = .ok ((3661001 : ℚ) / 1000) :=
  ⟨by norm_num, C3_format_parse_roundtrip 3661001 (by norm_num)⟩

/-- C2: `remove_subtitles_in_range` retains exactly the entries with
`end_time ≤ a` or `start_time ≥ b`, in their original relative order, and
afterwards no remaining entry satisfies `start_time < b ∧ end_time > a`. -/
theorem C2_remove_in_range (subtitles : List SubtitleEntry) (a b : ℚ) :
    (remove_subtitles_in_range subtitles a b).Sublist subtitles ∧
    (∀ e, e ∈ remove_subtitles_in_range subtitles a b ↔
      e ∈ subtitles ∧ (e.end_time ≤ a ∨ b ≤ e.start_time)) ∧
    (∀ e ∈ remove_subtitles_in_range subtitles a b,
      ¬ (e.start_time < b ∧ a < e.end_time)) := by
  refine ⟨List.filter_sublist _, fun e => ?_, fun e he => ?_⟩
  · rw [remove_subtitles_in_range, List.mem_filter]
    simp
  · rw [remove_subtitles_in_range, List.mem_filter] at he
    have h2 := he.2
    simp only [decide_eq_true_eq] at h2
    rintro ⟨hb, ha⟩
    rcases h2 with h | h
    · exact absurd ha (not_lt.mpr h)
    · exact absurd hb (not_lt.mpr h)

/-! ### C8 -/

/-- C8: `insert_subtitles` (insert each entry before the first entry with a
strictly larger start, then one final sort and reindex) yields a track sorted
by start ascending whose entry at 0-based position `i` carries index `i + 1`,
for every supplied insertion order; the entries themselves (ignoring the
rewritten indices) are exactly the old ones plus the new ones. -/
theorem C8_insert_subtitles_invariants (subtitles new_subtitles : List SubtitleEntry) :
    (insert_subtitles subtitles new_subtitles).Pairwise startLe ∧
    (∀ i : Fin (insert_subtitles subtitles new_subtitles).length,
      ((insert_subtitles subtitles new_subtitles).get i).index = i.1 + 1) ∧
    ((insert_subtitles subtitles new_subtitles).map entryData).Perm
      ((subtitles ++ new_subtitles).map entryData) := by
  refine ⟨?_, fun i => ?_, ?_⟩
  · exact reindex_subtitles_pairwise
      (List.sorted_insertionSort startLe (new_subtitles.foldl insert_subtitle subtitles))
  · rcases i with ⟨i, hi⟩
    simp only [insert_subtitles, List.get_eq_getElem] at hi ⊢
    rw [reindex_subtitles_getElem]
  · rw [insert_subtitles, reindex_subtitles_map_entryData, sort_subtitles_by_time]
    exact ((List.perm_insertionSort startLe _).map entryData).trans
      ((foldl_insert_subtitle_perm new_subtitles subtitles).map entryData)

/-! ### C9 -/

theorem parseDecimal_val (l : List Char) (hne : l ≠ [])
    (h : ∀ c ∈ l, c.isDigit = true) (v : ℚ) (hv : ((parseNat l : ℕ) : ℚ) = v) :
    parseDecimal l = some v := by
  rw [parseDecimal_digits hne h, hv]

/-- C9 counterexample: `parse_time_string` accepts a negative component, so
the parsed value can be negative, contradicting the claim that every
component is a non-negative real number. -/
theorem C9_counterexample_negative :
    parse_time_string ['-', '3', '0'] = .ok (-30) ∧ ((-30 : ℚ) < 0) := by
  constructor
  · have hpd : parseDecimal ['-', '3', '0'] = some (-30) := by
      rw [parseDecimal]
      rw [if_neg (by decide), if_pos rfl]
      rw [parseDecimalCore_digits (by decide) (by decide)]
      rw [show parseNat ['3', '0'] = 30 from by decide]
      norm_num
    rw [parse_time_string]
    rw [show List.splitOnP (fun c => c == ':') ['-', '3', '0'] = [['-', '3', '0']] from by
      decide]
    simp only [hpd]
  · norm_num

/-- C9 (amended): `parse_time_string` splits on `:` and interprets 1 part as
seconds, 2 as minutes:seconds, 3 as hours:minutes:seconds, each component
parsed as an `f64`-style real number which may be negative (negative inputs
are not rejected); any other split count is an error; in particular
`parse_time_string` maps `90`, `1:30` and `0:1:30` to 90 seconds. -/
theorem C9_parse_time_string (s : List Char)
    (hlen : 4 ≤ (List.splitOnP (fun c => c == ':') s).length) :
    parse_time_string s = .error () ∧
    parse_time_string ['9', '0'] = .ok 90 ∧
    parse_time_string ['1', ':', '3', '0'] = .ok 90 ∧
    parse_time_string ['0', ':', '1', ':', '3', '0'] = .ok 90 := by
  have h90 : parseDecimal ['9', '0'] = some 90 :=
    parseDecimal_val _ (by decide) (by decide) 90
      (by rw [show parseNat ['9', '0'] = 90 from by decide]; norm_num)
  have h30 : parseDecimal ['3', '0'] = some 30 :=
    parseDecimal_val _ (by decide) (by decide) 30
      (by rw [show parseNat ['3', '0'] = 30 from by decide]; norm_num)
  have h1 : parseDecimal ['1'] = some 1 :=
    parseDecimal_val _ (by decide) (by decide) 1
      (by rw [show parseNat ['1'] = 1 from by decide]; norm_num)
  have h0 : parseDecimal ['0'] = some 0 :=
    parseDecimal_val _ (by decide) (by decide) 0
      (by rw [show parseNat ['0'] = 0 from by decide]; norm_num)
  refine ⟨?_, ?_, ?_, ?_⟩
  · rw [parse_time_string]
    generalize List.splitOnP (fun c => c == ':') s = L at hlen ⊢
    rcases L with _ | ⟨a, _ | ⟨b, _ | ⟨c, _ | ⟨d, t⟩⟩⟩⟩
    · simp at hlen
    · simp at hlen
    · simp at hlen
    · simp at hlen
    · rfl
  · rw [parse_time_string]
    rw [show List.splitOnP (fun c => c == ':') ['9', '0'] = [['9', '0']] from by decide]
    simp only [h90]
  · rw [parse_time_string]
    rw [show List.splitOnP (fun c => c == ':') ['1', ':', '3', '0'] =
      [['1'], ['3', '0']] from by decide]
    simp only [h1, h30]
    norm_num
  · rw [parse_time_string]
    rw [show List.splitOnP (fun c => c == ':') ['0', ':', '1', ':', '3', '0'] =
      [['0'], ['1'], ['3', '0']] from by decide]
    simp only [h0, h1, h30]
    norm_num

theorem C9_parse_time_string_witness :
    4 ≤ (List.splitOnP (fun c => c == ':') ['1', ':', '2', ':', '3', ':', '4']).length ∧
    parse_time_string ['1', ':', '2', ':', '3', ':', '4'] = .error () :=
  ⟨by decide, (C9_parse_time_string _ (by decide)).1⟩

/-! ### Helper lemmas: trimming around line content -/

theorem dropWhile_cons_of_false {p : Char → Bool} {c : Char} {t : List Char}
    (h : p c = false) : (c :: t).dropWhile p = c :: t := by
  rw [List.dropWhile_cons, h]
  simp

theorem trimChars_eq_self_of_ends {l : List Char}
    (hh : ∀ c ∈ l.take 1, c.isWhitespace = false)
    (hl : ∀ c ∈ l.reverse.take 1, c.isWhitespace = false) : trimChars l = l := by
  rw [trimChars]
  cases hcase : l with
  | nil => rfl
  | cons c t =>
    rw [dropWhile_cons_of_false (hh c (by rw [hcase]; simp))]
    rw [← hcase]
    cases hr : l.reverse with
    | nil => simp [List.reverse_eq_nil_iff.mp hr]
    | cons d t2 =>
      rw [dropWhile_cons_of_false (hl d (by rw [hr]; simp))]
      rw [← hr, List.reverse_reverse]

theorem take_one_append {A rest : List Char} (h : A ≠ []) :
    (A ++ rest).take 1 = A.take 1 := by
  cases A with
  | nil => exact absurd rfl h
  | cons c t => simp

theorem trimChars_append_space {F : List Char} (h : ∀ c ∈ F, c.isWhitespace = false) :
    trimChars (F ++ [' ']) = F := by
  cases F with
  | nil => decide
  | cons c t =>
    rw [trimChars]
    have h1 : ((c :: t) ++ [' ']).dropWhile Char.isWhitespace = (c :: t) ++ [' '] := by
      rw [List.cons_append]
      exact dropWhile_cons_of_false (h c (by simp))
    rw [h1, List.reverse_append]
    show (((' ' : Char) :: (c :: t).reverse).dropWhile Char.isWhitespace).reverse = c :: t
    rw [List.dropWhile_cons]
    simp only [show ((' ' : Char).isWhitespace) = true from by decide, if_true]
    rw [dropWhile_eq_self_of_all fun x hx => h x (List.mem_reverse.mp hx), List.reverse_reverse]

theorem trimChars_cons_space {F : List Char} (h : ∀ c ∈ F, c.isWhitespace = false) :
    trimChars (' ' :: F) = F := by
  rw [trimChars, List.dropWhile_cons]
  simp only [show ((' ' : Char).isWhitespace) = true from by decide, if_true]
  rw [dropWhile_eq_self_of_all h,
    dropWhile_eq_self_of_all fun x hx => h x (List.mem_reverse.mp hx), List.reverse_reverse]

theorem trimChars_natToChars (i : ℕ) : trimChars (natToChars i) = natToChars i :=
  trimChars_eq_self fun x hx => isDigit_not_ws (natToChars_digits x hx)

theorem natToChars_not_blank (i : ℕ) : ((trimChars (natToChars i)).isEmpty) = false := by
  rw [trimChars_natToChars]
  cases hcase : natToChars i with
  | nil => exact absurd hcase natToChars_ne_nil
  | cons c t => rfl

/-! ### Helper lemmas: stepping the subtitle.rs track parser -/

theorem pscl_nil : parse_srt_content_lines [] = .ok [] := by
  rw [parse_srt_content_lines]

theorem pscl_blank {line : List Char} (rest : List (List Char))
    (h : (trimChars line).isEmpty = true) :
    parse_srt_content_lines (line :: rest) = parse_srt_content_lines rest := by
  rw [parse_srt_content_lines, if_pos h]

theorem pscl_skip {line : List Char} (rest : List (List Char))
    (h1 : (trimChars line).isEmpty = false) (h2 : parseUsize (trimChars line) = none) :
    parse_srt_content_lines (line :: rest) = parse_srt_content_lines rest := by
  rw [parse_srt_content_lines, if_neg (by simp [h1])]
  simp only [h2]

theorem pscl_index_end {line : List Char} {idx : ℕ}
    (h1 : (trimChars line).isEmpty = false) (h2 : parseUsize (trimChars line) = some idx) :
    parse_srt_content_lines [line] = .ok [] := by
  rw [parse_srt_content_lines, if_neg (by simp [h1])]
  simp only [h2]

theorem pscl_noarrow {line tline : List Char} {idx : ℕ} (rest2 : List (List Char))
    (h1 : (trimChars line).isEmpty = false) (h2 : parseUsize (trimChars line) = some idx)
    (h3 : containsArrow (trimChars tline) = false) :
    parse_srt_content_lines (line :: tline :: rest2) = parse_srt_content_lines rest2 := by
  rw [parse_srt_content_lines, if_neg (by simp [h1])]
  simp only [h2]
  rw [if_pos (by simp [h3])]

theorem pscl_badsplit {line tline : List Char} {idx : ℕ} (rest2 : List (List Char))
    {parts : List (List Char)}
    (h1 : (trimChars line).isEmpty = false) (h2 : parseUsize (trimChars line) = some idx)
    (h3 : containsArrow (trimChars tline) = true)
    (h4 : (splitArrow (trimChars tline)).map trimChars = parts)
    (h5 : ∀ t0 t1, parts ≠ [t0, t1]) :
    parse_srt_content_lines (line :: tline :: rest2) = parse_srt_content_lines rest2 := by
  rw [parse_srt_content_lines, if_neg (by simp [h1])]
  simp only [h2]
  rw [if_neg (by simp [h3]), h4]
  rcases parts with _ | ⟨a, _ | ⟨b, _ | ⟨c, t⟩⟩⟩
  · rfl
  · rfl
  · exact absurd rfl (h5 a b)
  · rfl

theorem pscl_entry {line tline t0 t1 : List Char} {idx : ℕ} (rest2 : List (List Char))
    {st en : ℚ}
    (h1 : (trimChars line).isEmpty = false) (h2 : parseUsize (trimChars line) = some idx)
    (h3 : containsArrow (trimChars tline) = true)
    (h4 : (splitArrow (trimChars tline)).map trimChars = [t0, t1])
    (h5 : parse_srt_time t0 = .ok st) (h6 : parse_srt_time t1 = .ok en) :
    parse_srt_content_lines (line :: tline :: rest2) =
      match parse_srt_content_lines (rest2.dropWhile fun x => ¬ (trimChars x).isEmpty) with
      | .ok entries =>
        .ok (⟨idx, st, en,
          ((((rest2.takeWhile fun x => ¬ (trimChars x).isEmpty).map trimChars).intersperse
            ['\n']).flatten)⟩ :: entries)
      | .error e => .error e := by
  rw [parse_srt_content_lines, if_neg (by simp [h1])]
  simp only [h2]
  rw [if_neg (by simp [h3])]
  simp only [h4, h5, h6]

theorem pscl_entry_err {line tline t0 t1 : List Char} {idx : ℕ} (rest2 : List (List Char))
    (h1 : (trimChars line).isEmpty = false) (h2 : parseUsize (trimChars line) = some idx)
    (h3 : containsArrow (trimChars tline) = true)
    (h4 : (splitArrow (trimChars tline)).map trimChars = [t0, t1])
    (h5 : parse_srt_time t0 = .error () ∨
      (∃ q, parse_srt_time t0 = .ok q) ∧ parse_srt_time t1 = .error ()) :
    parse_srt_content_lines (line :: tline :: rest2) = .error () := by
  rw [parse_srt_content_lines, if_neg (by simp [h1])]
  simp only [h2]
  rw [if_neg (by simp [h3])]
  rcases h5 with h5 | ⟨⟨q, hq⟩, h6⟩
  · cases hpt : parse_srt_time t1 with
    | ok v => simp only [h4, h5, hpt]
    | error e => simp only [h4, h5, hpt]
  · simp only [h4, hq, h6]

/-! ### Helper lemmas: character classes of rendered lines -/

theorem natToChars_no_dash {i : ℕ} : ∀ c ∈ natToChars i, c ≠ '-' :=
  fun c hc => isDigit_ne (natToChars_digits c hc) (by decide)

theorem natToChars_no_newline {i : ℕ} : ∀ c ∈ natToChars i, c ≠ '\n' :=
  fun c hc => isDigit_ne (natToChars_digits c hc) (by decide)

theorem srtTimeChars_no_dash {h m s ms : ℕ} : ∀ c ∈ srtTimeChars h m s ms, c ≠ '-' := by
  intro c hc
  rcases srtTimeChars_mem hc with h1 | h1 | h1
  · exact isDigit_ne h1 (by decide)
  · rw [h1]; decide
  · rw [h1]; decide

theorem srtTimeChars_no_newline {h m s ms : ℕ} : ∀ c ∈ srtTimeChars h m s ms, c ≠ '\n' := by
  intro c hc
  rcases srtTimeChars_mem hc with h1 | h1 | h1
  · exact isDigit_ne h1 (by decide)
  · rw [h1]; decide
  · rw [h1]; decide

theorem timeLineChars_trim {F1 F2 : List Char} (h1 : ∀ c ∈ F1, c.isWhitespace = false)
    (h2 : ∀ c ∈ F2, c.isWhitespace = false) (hne1 : F1 ≠ []) (hne2 : F2 ≠ []) :
    trimChars (timeLineChars F1 F2) = timeLineChars F1 F2 := by
  apply trimChars_eq_self_of_ends
  · rw [timeLineChars, take_one_append hne1]
    intro c hc
    exact h1 c ((List.take_subset 1 F1) hc)
  · rw [timeLineChars]
    intro c hc
    rw [show (F1 ++ ' ' :: '-' :: '-' :: '>' :: ' ' :: F2).reverse =
      F2.reverse ++ (' ' :: '-' :: '-' :: '>' :: ' ' :: []).reverse ++ F1.reverse from by
        simp] at hc
    rw [List.append_assoc, take_one_append (by simpa using hne2)] at hc
    exact h2 c (List.mem_reverse.mp ((List.take_subset 1 F2.reverse) hc))

theorem timeLineChars_arrow (F1 F2 : List Char) :
    containsArrow (timeLineChars F1 F2) = true := by
  rw [show timeLineChars F1 F2 = (F1 ++ [' ']) ++ '-' :: '-' :: '>' :: (' ' :: F2) from by
    rw [timeLineChars]; simp]
  exact containsArrow_append _ _

theorem timeLineChars_split {F1 F2 : List Char} (h1 : ∀ c ∈ F1, c ≠ '-')
    (h2 : ∀ c ∈ F2, c ≠ '-') :
    splitArrow (timeLineChars F1 F2) = [F1 ++ [' '], ' ' :: F2] := by
  rw [show timeLineChars F1 F2 = (F1 ++ [' ']) ++ '-' :: '-' :: '>' :: (' ' :: F2) from by
    rw [timeLineChars]; simp]
  rw [splitArrow_append _ (fun c hc => by
    rcases List.mem_append.mp hc with h | h
    · exact h1 c h
    · rw [List.mem_singleton.mp h]; decide)]
  rw [splitArrow_eq_self (fun c hc => by
    rcases List.mem_cons.mp hc with h | h
    · rw [h]; decide
    · exact h2 c h)]

theorem timeLineChars_split_trim {F1 F2 : List Char}
    (hw1 : ∀ c ∈ F1, c.isWhitespace = false) (hw2 : ∀ c ∈ F2, c.isWhitespace = false)
    (h1 : ∀ c ∈ F1, c ≠ '-') (h2 : ∀ c ∈ F2, c ≠ '-') :
    (splitArrow (timeLineChars F1 F2)).map trimChars = [F1, F2] := by
  rw [timeLineChars_split h1 h2]
  simp only [List.map_cons, List.map_nil]
  rw [trimChars_append_space hw1, trimChars_cons_space hw2]

theorem parseUsize_none_nondigit {l : List Char} {d : Char} (hin : d ∈ l)
    (hnd : d.isDigit = false) (hplus : l.head? ≠ some '+') : parseUsize l = none := by
  cases l with
  | nil => simp at hin
  | cons c t =>
    rw [parseUsize, if_neg (by intro he; rw [he] at hplus; exact hplus rfl)]
    rw [parseUsizeCore, if_neg]
    rintro ⟨-, hall⟩
    rw [List.all_eq_true] at hall
    rw [hall d hin] at hnd
    exact Bool.true_eq_false.mp hnd

/-! ### Helper lemmas: reading back rendered lines -/

theorem splitOnP_render_lines {ls : List (List Char)} (h : ∀ l ∈ ls, ∀ c ∈ l, c ≠ '\n') :
    List.splitOnP (fun c => c == '\n') (render_lines ls) = ls ++ [[]] := by
  induction ls with
  | nil => simp [render_lines, List.splitOnP_nil]
  | cons l t ih =>
    rw [render_lines, List.map_cons, List.flatten_cons]
    rw [show l ++ ['\n'] ++ (List.map (fun x => x ++ ['\n']) t).flatten =
      l ++ '\n' :: render_lines t from by rw [render_lines]; simp]
    rw [splitOnP_append_sep _ (fun x hx => by
      rw [beq_eq_false_iff_ne]
      exact h l (by simp) x hx) (by decide)]
    rw [ih fun l2 hl2 => h l2 (by simp [hl2])]
    rfl

theorem rustLines_render_lines {ls : List (List Char)}
    (h : ∀ l ∈ ls, ∀ c ∈ l, c ≠ '\n') : rustLines (render_lines ls) = ls := by
  rw [rustLines]
  simp only [splitOnP_render_lines h]
  cases ls with
  | nil =>
    rw [if_pos]
    · rfl
    · right
      rfl
  | cons l t =>
    rw [if_pos]
    · exact List.dropLast_concat
    · left
      constructor
      · exact List.getLast?_concat _
      · simp

/-! ### Helper lemmas: stepping the srt_merger.rs fragment parser -/

theorem sm_nil_none (acc : List MergEntry) : srtm_parse_lines [] none acc = acc := by
  rw [srtm_parse_lines]

theorem sm_nil_some_empty {e : MergEntry} (acc : List MergEntry)
    (h : e.start_time = [] ∨ e.end_time = []) : srtm_parse_lines [] (some e) acc = acc := by
  rw [srtm_parse_lines]
  rw [if_neg]
  rintro ⟨h1, h2⟩
  rcases h with h | h
  · exact h1 h
  · exact h2 h

theorem sm_nil_some_full {e : MergEntry} (acc : List MergEntry)
    (h1 : e.start_time ≠ []) (h2 : e.end_time ≠ []) :
    srtm_parse_lines [] (some e) acc = acc ++ [e] := by
  rw [srtm_parse_lines, if_pos ⟨h1, h2⟩]

theorem sm_blank_none {line : List Char} (rest : List (List Char)) (acc : List MergEntry)
    (h : (trimChars line).isEmpty = true) :
    srtm_parse_lines (line :: rest) none acc = srtm_parse_lines rest none acc := by
  rw [srtm_parse_lines, if_pos h]

theorem sm_blank_some_empty {line : List Char} {e : MergEntry} (rest : List (List Char))
    (acc : List MergEntry) (h : (trimChars line).isEmpty = true)
    (he : e.start_time = [] ∨ e.end_time = []) :
    srtm_parse_lines (line :: rest) (some e) acc = srtm_parse_lines rest none acc := by
  rw [srtm_parse_lines, if_pos h]
  rw [if_neg]
  rintro ⟨h1, h2⟩
  rcases he with h' | h'
  · exact h1 h'
  · exact h2 h'

theorem sm_blank_some_full {line : List Char} {e : MergEntry} (rest : List (List Char))
    (acc : List MergEntry) (h : (trimChars line).isEmpty = true)
    (h1 : e.start_time ≠ []) (h2 : e.end_time ≠ []) :
    srtm_parse_lines (line :: rest) (some e) acc =
      srtm_parse_lines rest none (acc ++ [e]) := by
  rw [srtm_parse_lines, if_pos h, if_pos ⟨h1, h2⟩]

theorem sm_index {line : List Char} {i : ℕ} (rest : List (List Char))
    (cur : Option MergEntry) (acc : List MergEntry)
    (h1 : (trimChars line).isEmpty = false) (h2 : parseUsize (trimChars line) = some i) :
    srtm_parse_lines (line :: rest) cur acc =
      srtm_parse_lines rest (some ⟨i, [], [], []⟩) acc := by
  rw [srtm_parse_lines.eq_def]
  simp only [h1, h2]
  rw [if_neg (by decide)]

theorem sm_time {line : List Char} {e : MergEntry} {r0 r1 : List Char}
    (rest : List (List Char)) (acc : List MergEntry)
    (h1 : (trimChars line).isEmpty = false) (h2 : parseUsize (trimChars line) = none)
    (h3 : containsArrow (trimChars line) = true)
    (h4 : splitArrow (trimChars line) = [r0, r1])
    (h5 : trimChars r0 ≠ []) (h6 : trimChars r1 ≠ []) :
    srtm_parse_lines (line :: rest) (some e) acc =
      srtm_parse_lines rest
        (some { e with start_time := trimChars r0, end_time := trimChars r1 }) acc := by
  rw [srtm_parse_lines.eq_def]
  simp only [h1, h2, h3, h4]
  simp [h5, h6]

theorem sm_text {line : List Char} {e : MergEntry} (rest : List (List Char))
    (acc : List MergEntry)
    (h1 : (trimChars line).isEmpty = false) (h2 : parseUsize (trimChars line) = none)
    (h3 : containsArrow (trimChars line) = false) (h4 : e.start_time ≠ []) :
    srtm_parse_lines (line :: rest) (some e) acc =
      srtm_parse_lines rest (some { e with text := e.text ++ [trimChars line] }) acc := by
  rw [srtm_parse_lines, if_neg (by simp [h1])]
  simp only [h2, h3]
  rw [if_neg (by decide), if_pos h4]

/-! ### Helper lemmas: parsing one well-formed SRT block -/

theorem fmt_ms_not_ws (n : ℕ) : ∀ c ∈ format_srt_time ((n : ℚ) / 1000), c.isWhitespace = false := by
  rw [format_srt_time_ms]
  exact srtTimeChars_not_ws

theorem fmt_ms_no_dash (n : ℕ) : ∀ c ∈ format_srt_time ((n : ℚ) / 1000), c ≠ '-' := by
  rw [format_srt_time_ms]
  exact srtTimeChars_no_dash

theorem fmt_ms_ne_nil (n : ℕ) : format_srt_time ((n : ℚ) / 1000) ≠ [] := by
  rw [format_srt_time_ms]
  exact srtTimeChars_ne_nil

theorem fmt_ms_no_newline (n : ℕ) : ∀ c ∈ format_srt_time ((n : ℚ) / 1000), c ≠ '\n' := by
  rw [format_srt_time_ms]
  exact srtTimeChars_no_newline

theorem timeLine_fmt_no_newline (n m : ℕ) :
    ∀ c ∈ timeLineChars (format_srt_time ((n : ℚ) / 1000)) (format_srt_time ((m : ℚ) / 1000)),
      c ≠ '\n' := by
  rw [timeLineChars]
  intro c hc
  simp only [List.mem_append, List.mem_cons] at hc
  rcases hc with h | h | h | h | h | h
  · exact fmt_ms_no_newline n c h
  · rw [h]; decide
  · rw [h]; decide
  · rw [h]; decide
  · rw [h]; decide
  · rcases h with h | h
    · rw [h]; decide
    · exact fmt_ms_no_newline m c h

theorem timeLine_fmt_trim (n m : ℕ) :
    trimChars (timeLineChars (format_srt_time ((n : ℚ) / 1000))
        (format_srt_time ((m : ℚ) / 1000))) =
      timeLineChars (format_srt_time ((n : ℚ) / 1000)) (format_srt_time ((m : ℚ) / 1000)) :=
  timeLineChars_trim (fmt_ms_not_ws n) (fmt_ms_not_ws m) (fmt_ms_ne_nil n) (fmt_ms_ne_nil m)

theorem parse_block3 (idx n m : ℕ) :
    parse_srt_content_lines
      [natToChars idx,
        timeLineChars (format_srt_time ((n : ℚ) / 1000)) (format_srt_time ((m : ℚ) / 1000)),
        ['x']] = .ok [⟨idx, (n : ℚ) / 1000, (m : ℚ) / 1000, ['x']⟩] := by
  rw [pscl_entry [['x']] (natToChars_not_blank idx)
    (by rw [trimChars_natToChars]; exact parseUsize_natToChars idx)
    (by rw [timeLine_fmt_trim]; exact timeLineChars_arrow _ _)
    (by rw [timeLine_fmt_trim]
        exact timeLineChars_split_trim (fmt_ms_not_ws n) (fmt_ms_not_ws m)
          (fmt_ms_no_dash n) (fmt_ms_no_dash m))
    (parse_format_roundtrip n) (parse_format_roundtrip m)]
  rw [show List.dropWhile (fun x => ¬ (trimChars x).isEmpty) ([['x']] : List (List Char)) =
    [] from by decide]
  rw [pscl_nil]
  exact congrArg
    (fun t => (Except.ok [SubtitleEntry.mk idx ((n : ℚ) / 1000) ((m : ℚ) / 1000) t] :
      Except Unit (List SubtitleEntry)))
    (by decide :
      (List.intersperse ['\n'] (List.map trimChars
        (List.takeWhile (fun x => ¬ (trimChars x).isEmpty) [['x']]))).flatten = ['x'])

theorem parse_block3_content (idx n m : ℕ) :
    parse_srt_content (render_lines
      [natToChars idx,
        timeLineChars (format_srt_time ((n : ℚ) / 1000)) (format_srt_time ((m : ℚ) / 1000)),
        ['x']]) = .ok [⟨idx, (n : ℚ) / 1000, (m : ℚ) / 1000, ['x']⟩] := by
  rw [parse_srt_content, rustLines_render_lines, parse_block3]
  intro l hl
  simp only [List.mem_cons, List.not_mem_nil, or_false] at hl
  rcases hl with rfl | rfl | rfl
  · exact natToChars_no_newline
  · exact timeLine_fmt_no_newline n m
  · intro c hc
    rcases List.mem_singleton.mp hc with rfl
    decide

/-! ### C5 -/

/-- C5 counterexample: a block whose timestamps satisfy `start >= end`
(`00:00:02,000 --> 00:00:01,000`) parses without any error, producing the
entry with `start_time = 2` and `end_time = 1`; the claimed `start < end`
parse-time rejection does not exist. -/
theorem C5_counterexample_reversed_block :
    parse_srt_content (render_lines
      [['1'],
        timeLineChars (format_srt_time ((2000 : ℚ) / 1000)) (format_srt_time ((1000 : ℚ) / 1000)),
        ['x']]) = .ok [⟨1, 2, 1, ['x']⟩] ∧ (1 : ℚ) < 2 := by
  constructor
  · have h := parse_block3_content 1 2000 1000
    rw [show natToChars 1 = ['1'] from by decide] at h
    rw [show ((2000 : ℕ) : ℚ) / 1000 = (2000 : ℚ) / 1000 from by norm_num,
      show ((1000 : ℕ) : ℚ) / 1000 = (1000 : ℚ) / 1000 from by norm_num] at h
    rw [h]
    norm_num
  · norm_num

/-- C5 (amended): the track parser does not enforce `start < end`; every
block whose timestamp line carries two well-formed timestamps parses to an
entry with exactly those times, whether or not `start < end` holds. -/
theorem C5_no_interval_check (idx n m : ℕ) :
    parse_srt_content (render_lines
      [natToChars idx,
        timeLineChars (format_srt_time ((n : ℚ) / 1000)) (format_srt_time ((m : ℚ) / 1000)),
        ['x']]) = .ok [⟨idx, (n : ℚ) / 1000, (m : ℚ) / 1000, ['x']⟩] :=
  parse_block3_content idx n m

/-! ### Helper lemmas: format lemmas at rational literals -/

theorem isEmpty_false_of_ne_nil {l : List Char} (h : l ≠ []) : l.isEmpty = false := by
  cases l with
  | nil => exact absurd rfl h
  | cons c t => rfl

theorem fmt_q_not_ws {n : ℕ} {q : ℚ} (hq : ((n : ℕ) : ℚ) / 1000 = q) :
    ∀ c ∈ format_srt_time q, c.isWhitespace = false := by
  rw [← hq]
  exact fmt_ms_not_ws n

theorem fmt_q_no_dash {n : ℕ} {q : ℚ} (hq : ((n : ℕ) : ℚ) / 1000 = q) :
    ∀ c ∈ format_srt_time q, c ≠ '-' := by
  rw [← hq]
  exact fmt_ms_no_dash n

theorem fmt_q_no_newline {n : ℕ} {q : ℚ} (hq : ((n : ℕ) : ℚ) / 1000 = q) :
    ∀ c ∈ format_srt_time q, c ≠ '\n' := by
  rw [← hq]
  exact fmt_ms_no_newline n

theorem fmt_q_ne_nil {n : ℕ} {q : ℚ} (hq : ((n : ℕ) : ℚ) / 1000 = q) :
    format_srt_time q ≠ [] := by
  rw [← hq]
  exact fmt_ms_ne_nil n

theorem fmt_q_mem {n : ℕ} {q : ℚ} (hq : ((n : ℕ) : ℚ) / 1000 = q) :
    ∀ c ∈ format_srt_time q, c.isDigit = true ∨ c = ':' ∨ c = ',' := by
  rw [← hq, format_srt_time_ms]
  exact fun c hc => srtTimeChars_mem hc

theorem parse_fmt_q {n : ℕ} {q : ℚ} (hq : ((n : ℕ) : ℚ) / 1000 = q) :
    parse_srt_time (format_srt_time q) = .ok q := by
  rw [← hq]
  exact parse_format_roundtrip n

theorem srtm_parse_fmt_q {n : ℕ} {q : ℚ} (hq : ((n : ℕ) : ℚ) / 1000 = q) :
    srtm_parse_srt_time (format_srt_time q) = .ok q := by
  rw [← hq]
  exact srtm_parse_format_roundtrip n

theorem parseUsize_timeLine_none {F1 F2 : List Char}
    (h1 : ∀ c ∈ F1, c.isDigit = true ∨ c = ':' ∨ c = ',') (hne : F1 ≠ []) :
    parseUsize (timeLineChars F1 F2) = none := by
  apply parseUsize_none_nondigit (d := ' ')
  · rw [timeLineChars]
    simp
  · decide
  · cases F1 with
    | nil => exact absurd rfl hne
    | cons c t =>
      rw [timeLineChars, List.cons_append, List.head?_cons]
      intro he
      rcases Option.some.inj he with rfl
      rcases h1 '+' (by simp) with h | h | h
      · exact absurd h (by decide)
      · exact absurd h (by decide)
      · exact absurd h (by decide)

theorem timeLine_isEmpty_false {F1 F2 : List Char} (hne : F1 ≠ []) :
    (timeLineChars F1 F2).isEmpty = false := by
  apply isEmpty_false_of_ne_nil
  rw [timeLineChars]
  intro he
  rcases List.append_eq_nil.mp he with ⟨h1, -⟩
  exact hne h1

/-! ### Helper lemmas: the C4 input family -/

theorem hq_one : ((1000 : ℕ) : ℚ) / 1000 = (1 : ℚ) := by norm_num

theorem hq_two : ((2000 : ℕ) : ℚ) / 1000 = (2 : ℚ) := by norm_num

theorem timeLine12_trim :
    trimChars (timeLineChars (format_srt_time 1) (format_srt_time 2)) =
      timeLineChars (format_srt_time 1) (format_srt_time 2) :=
  timeLineChars_trim (fmt_q_not_ws hq_one) (fmt_q_not_ws hq_two)
    (fmt_q_ne_nil hq_one) (fmt_q_ne_nil hq_two)

theorem timeLine12_no_newline :
    ∀ c ∈ timeLineChars (format_srt_time 1) (format_srt_time 2), c ≠ '\n' := by
  rw [timeLineChars]
  intro c hc
  simp only [List.mem_append, List.mem_cons] at hc
  rcases hc with h | h | h | h | h | h
  · exact fmt_q_no_newline hq_one c h
  · rw [h]; decide
  · rw [h]; decide
  · rw [h]; decide
  · rw [h]; decide
  · rcases h with h | h
    · rw [h]; decide
    · exact fmt_q_no_newline hq_two c h

theorem c4_lines_A_sub (i j : ℕ) :
    parse_srt_content_lines
      [['1'], timeLineChars (format_srt_time 1) (format_srt_time 2), ['h', 'i'], [],
        natToChars i, natToChars j] = .ok [⟨1, 1, 2, ['h', 'i']⟩] := by
  rw [pscl_entry [['h', 'i'], [], natToChars i, natToChars j] (by decide)
    (show parseUsize (trimChars ['1']) = some 1 from by decide)
    (by rw [timeLine12_trim]; exact timeLineChars_arrow _ _)
    (by rw [timeLine12_trim]
        exact timeLineChars_split_trim (fmt_q_not_ws hq_one) (fmt_q_not_ws hq_two)
          (fmt_q_no_dash hq_one) (fmt_q_no_dash hq_two))
    (parse_fmt_q hq_one) (parse_fmt_q hq_two)]
  rw [show List.takeWhile (fun x => ¬ (trimChars x).isEmpty)
      ([['h', 'i'], [], natToChars i, natToChars j] : List (List Char)) = [['h', 'i']] from by
    rw [List.takeWhile_cons, if_pos (by decide), List.takeWhile_cons, if_neg (by decide)]]
  rw [show List.dropWhile (fun x => ¬ (trimChars x).isEmpty)
      ([['h', 'i'], [], natToChars i, natToChars j] : List (List Char)) =
      [] :: natToChars i :: [natToChars j] from by
    rw [List.dropWhile_cons, if_pos (by decide), List.dropWhile_cons, if_neg (by decide)]]
  rw [pscl_blank _ (by decide)]
  rw [pscl_noarrow [] (natToChars_not_blank i)
    (by rw [trimChars_natToChars]; exact parseUsize_natToChars i)
    (by rw [trimChars_natToChars]; exact containsArrow_false natToChars_no_dash)]
  rw [pscl_nil]
  exact congrArg
    (fun t => (Except.ok [SubtitleEntry.mk 1 1 2 t] : Except Unit (List SubtitleEntry)))
    (by decide : (List.intersperse ['\n'] (List.map trimChars [['h', 'i']])).flatten = ['h', 'i'])

theorem c4_lines_B_sub (i j : ℕ) :
    parse_srt_content_lines
      [natToChars i, natToChars j, [], ['1'],
        timeLineChars (format_srt_time 1) (format_srt_time 2), ['h', 'i']] =
      .ok [⟨1, 1, 2, ['h', 'i']⟩] := by
  rw [pscl_noarrow ([] :: ['1'] ::
      timeLineChars (format_srt_time 1) (format_srt_time 2) :: [['h', 'i']])
    (natToChars_not_blank i)
    (by rw [trimChars_natToChars]; exact parseUsize_natToChars i)
    (by rw [trimChars_natToChars]; exact containsArrow_false natToChars_no_dash)]
  rw [pscl_blank _ (by decide)]
  rw [pscl_entry [['h', 'i']] (by decide)
    (show parseUsize (trimChars ['1']) = some 1 from by decide)
    (by rw [timeLine12_trim]; exact timeLineChars_arrow _ _)
    (by rw [timeLine12_trim]
        exact timeLineChars_split_trim (fmt_q_not_ws hq_one) (fmt_q_not_ws hq_two)
          (fmt_q_no_dash hq_one) (fmt_q_no_dash hq_two))
    (parse_fmt_q hq_one) (parse_fmt_q hq_two)]
  rw [show List.dropWhile (fun x => ¬ (trimChars x).isEmpty)
      ([['h', 'i']] : List (List Char)) = [] from by decide]
  rw [pscl_nil]
  exact congrArg
    (fun t => (Except.ok [SubtitleEntry.mk 1 1 2 t] : Except Unit (List SubtitleEntry)))
    (by decide : (List.intersperse ['\n'] (List.map trimChars
      (List.takeWhile (fun x => ¬ (trimChars x).isEmpty) [['h', 'i']]))).flatten = ['h', 'i'])

theorem c4_lines_A_merg (i j : ℕ) :
    srtm_parse_lines
      [['1'], timeLineChars (format_srt_time 1) (format_srt_time 2), ['h', 'i'], [],
        natToChars i, natToChars j] none [] =
      [⟨1, format_srt_time 1, format_srt_time 2, [['h', 'i']]⟩] := by
  rw [sm_index _ none [] (by decide) (show parseUsize (trimChars ['1']) = some 1 from by decide)]
  rw [sm_time _ []
    (by rw [timeLine12_trim]; exact timeLine_isEmpty_false (fmt_q_ne_nil hq_one))
    (by rw [timeLine12_trim]
        exact parseUsize_timeLine_none (fmt_q_mem hq_one) (fmt_q_ne_nil hq_one))
    (by rw [timeLine12_trim]; exact timeLineChars_arrow _ _)
    (by rw [timeLine12_trim]
        exact timeLineChars_split (fmt_q_no_dash hq_one) (fmt_q_no_dash hq_two))
    (by rw [trimChars_append_space (fmt_q_not_ws hq_one)]; exact fmt_q_ne_nil hq_one)
    (by rw [trimChars_cons_space (fmt_q_not_ws hq_two)]; exact fmt_q_ne_nil hq_two)]
  rw [trimChars_append_space (fmt_q_not_ws hq_one), trimChars_cons_space (fmt_q_not_ws hq_two)]
  rw [sm_text _ _ (by decide) (by decide) (by decide) (fmt_q_ne_nil hq_one)]
  rw [sm_blank_some_full _ _ (by decide) (fmt_q_ne_nil hq_one) (fmt_q_ne_nil hq_two)]
  rw [sm_index _ _ _ (natToChars_not_blank i)
    (by rw [trimChars_natToChars]; exact parseUsize_natToChars i)]
  rw [sm_index _ _ _ (natToChars_not_blank j)
    (by rw [trimChars_natToChars]; exact parseUsize_natToChars j)]
  rw [sm_nil_some_empty _ (Or.inl rfl)]
  rw [show trimChars ['h', 'i'] = ['h', 'i'] from by decide]
  simp

theorem c4_lines_B_merg (i j : ℕ) :
    srtm_parse_lines
      [natToChars i, natToChars j, [], ['1'],
        timeLineChars (format_srt_time 1) (format_srt_time 2), ['h', 'i']] none [] =
      [⟨1, format_srt_time 1, format_srt_time 2, [['h', 'i']]⟩] := by
  rw [sm_index _ none [] (natToChars_not_blank i)
    (by rw [trimChars_natToChars]; exact parseUsize_natToChars i)]
  rw [sm_index _ _ _ (natToChars_not_blank j)
    (by rw [trimChars_natToChars]; exact parseUsize_natToChars j)]
  rw [sm_blank_some_empty _ _ (by decide) (Or.inl rfl)]
  rw [sm_index _ _ _ (by decide) (show parseUsize (trimChars ['1']) = some 1 from by decide)]
  rw [sm_time _ []
    (by rw [timeLine12_trim]; exact timeLine_isEmpty_false (fmt_q_ne_nil hq_one))
    (by rw [timeLine12_trim]
        exact parseUsize_timeLine_none (fmt_q_mem hq_one) (fmt_q_ne_nil hq_one))
    (by rw [timeLine12_trim]; exact timeLineChars_arrow _ _)
    (by rw [timeLine12_trim]
        exact timeLineChars_split (fmt_q_no_dash hq_one) (fmt_q_no_dash hq_two))
    (by rw [trimChars_append_space (fmt_q_not_ws hq_one)]; exact fmt_q_ne_nil hq_one)
    (by rw [trimChars_cons_space (fmt_q_not_ws hq_two)]; exact fmt_q_ne_nil hq_two)]
  rw [trimChars_append_space (fmt_q_not_ws hq_one), trimChars_cons_space (fmt_q_not_ws hq_two)]
  rw [sm_text _ _ (by decide) (by decide) (by decide) (fmt_q_ne_nil hq_one)]
  rw [sm_nil_some_full _ (fmt_q_ne_nil hq_one) (fmt_q_ne_nil hq_two)]
  rw [show trimChars ['h', 'i'] = ['h', 'i'] from by decide]
  simp

theorem c4_A_no_newline (i j : ℕ) :
    ∀ l ∈ ([['1'], timeLineChars (format_srt_time 1) (format_srt_time 2), ['h', 'i'], [],
      natToChars i, natToChars j] : List (List Char)), ∀ c ∈ l, c ≠ '\n' := by
  intro l hl
  simp only [List.mem_cons, List.not_mem_nil, or_false] at hl
  rcases hl with rfl | rfl | rfl | rfl | rfl | rfl
  · decide
  · exact timeLine12_no_newline
  · decide
  · intro c hc; simp at hc
  · exact natToChars_no_newline
  · exact natToChars_no_newline

theorem c4_B_no_newline (i j : ℕ) :
    ∀ l ∈ ([natToChars i, natToChars j, [], ['1'],
      timeLineChars (format_srt_time 1) (format_srt_time 2), ['h', 'i']] : List (List Char)),
      ∀ c ∈ l, c ≠ '\n' := by
  intro l hl
  simp only [List.mem_cons, List.not_mem_nil, or_false] at hl
  rcases hl with rfl | rfl | rfl | rfl | rfl | rfl
  · exact natToChars_no_newline
  · exact natToChars_no_newline
  · intro c hc; simp at hc
  · decide
  · exact timeLine12_no_newline
  · decide

/-! ### C4 -/

/-- C4 counterexample: an input with one well-formed block and one block
whose index line is followed by a line containing `-->` with unparseable
timestamps (`aa --> bb`) makes the whole parse fail, so the parser is not
lenient for every malformed individual block. -/
theorem C4_counterexample_bad_timestamps :
    parse_srt_content (render_lines
      [['1'], timeLineChars (format_srt_time 1) (format_srt_time 2), ['x'], [],
        ['1'], ['a', 'a', ' ', '-', '-', '>', ' ', 'b', 'b']]) = .error () := by
  rw [parse_srt_content, rustLines_render_lines]
  · rw [pscl_entry [['x'], [], ['1'], ['a', 'a', ' ', '-', '-', '>', ' ', 'b', 'b']]
      (by decide) (show parseUsize (trimChars ['1']) = some 1 from by decide)
      (by rw [timeLine12_trim]; exact timeLineChars_arrow _ _)
      (by rw [timeLine12_trim]
          exact timeLineChars_split_trim (fmt_q_not_ws hq_one) (fmt_q_not_ws hq_two)
            (fmt_q_no_dash hq_one) (fmt_q_no_dash hq_two))
      (parse_fmt_q hq_one) (parse_fmt_q hq_two)]
    rw [show List.dropWhile (fun x => ¬ (trimChars x).isEmpty)
        ([['x'], [], ['1'], ['a', 'a', ' ', '-', '-', '>', ' ', 'b', 'b']] :
          List (List Char)) =
        [] :: ['1'] :: [['a', 'a', ' ', '-', '-', '>', ' ', 'b', 'b']] from by decide]
    rw [pscl_blank _ (by decide)]
    rw [pscl_entry_err [] (by decide)
      (show parseUsize (trimChars ['1']) = some 1 from by decide)
      (by decide)
      (show (splitArrow (trimChars ['a', 'a', ' ', '-', '-', '>', ' ', 'b', 'b'])).map
        trimChars = [['a', 'a'], ['b', 'b']] from by decide)
      (Or.inl rfl)]
  · intro l hl
    simp only [List.mem_cons, List.not_mem_nil, or_false] at hl
    rcases hl with rfl | rfl | rfl | rfl | rfl | rfl
    · decide
    · exact timeLine12_no_newline
    · decide
    · intro c hc; simp at hc
    · decide
    · decide

/-- C4 (amended): an index line whose following line does not contain the
`-->` separator (for example another index line) is skipped without failing
the parse: for every pair of index numerals `i`, `j`, an input consisting of
one well-formed block plus one block whose index line is immediately
followed by another index line parses (in either order, under both the
subtitle.rs track parser and the srt_merger.rs fragment parser) to exactly
the one well-formed entry.  (A following line that does contain `-->` with
unparseable timestamps still fails the whole parse in subtitle.rs.) -/
theorem C4_lenient_index_index (i j : ℕ) :
    parse_srt_content (render_lines
      [['1'], timeLineChars (format_srt_time 1) (format_srt_time 2), ['h', 'i'], [],
        natToChars i, natToChars j]) = .ok [⟨1, 1, 2, ['h', 'i']⟩] ∧
    parse_srt_content (render_lines
      [natToChars i, natToChars j, [], ['1'],
        timeLineChars (format_srt_time 1) (format_srt_time 2), ['h', 'i']]) =
      .ok [⟨1, 1, 2, ['h', 'i']⟩] ∧
    srtm_parse_srt_file
      (fun _ => some (render_lines
        [['1'], timeLineChars (format_srt_time 1) (format_srt_time 2), ['h', 'i'], [],
          natToChars i, natToChars j])) ("segA.srt") =
      .ok [⟨1, format_srt_time 1, format_srt_time 2, [['h', 'i']]⟩] ∧
    srtm_parse_srt_file
      (fun _ => some (render_lines
        [natToChars i, natToChars j, [], ['1'],
          timeLineChars (format_srt_time 1) (format_srt_time 2), ['h', 'i']])) ("segB.srt") =
      .ok [⟨1, format_srt_time 1, format_srt_time 2, [['h', 'i']]⟩] := by
  refine ⟨?_, ?_, ?_, ?_⟩
  · rw [parse_srt_content, rustLines_render_lines (c4_A_no_newline i j), c4_lines_A_sub]
  · rw [parse_srt_content, rustLines_render_lines (c4_B_no_newline i j), c4_lines_B_sub]
  · rw [srtm_parse_srt_file]
    exact congrArg (Except.ok (ε := Unit))
      (by rw [rustLines_render_lines (c4_A_no_newline i j), c4_lines_A_merg])
  · rw [srtm_parse_srt_file]
    exact congrArg (Except.ok (ε := Unit))
      (by rw [rustLines_render_lines (c4_B_no_newline i j), c4_lines_B_merg])

/-! ### Helper lemmas: enumeration and filtering for the resume scanner -/

theorem mem_map_fst_filter_enum {α : Type} (l : List α) (p : ℕ × α → Bool) (k : ℕ) :
    k ∈ (l.enum.filter p).map Prod.fst ↔ ∃ h : k < l.length, p (k, l[k]) = true := by
  constructor
  · intro hk
    rcases List.mem_map.mp hk with ⟨pr, hpr, hfst⟩
    rcases List.mem_filter.mp hpr with ⟨henum, hp⟩
    rcases pr with ⟨i, a⟩
    cases hfst
    rcases List.mem_enum henum with ⟨hlt, ha⟩
    exact ⟨hlt, by rwa [← ha]⟩
  · rintro ⟨h, hp⟩
    apply List.mem_map.mpr
    have hk2 : k < l.enum.length := by simpa using h
    refine ⟨(k, l[k]), List.mem_filter.mpr ⟨?_, hp⟩, rfl⟩
    have hget : l.enum[k] = (k, l[k]) := List.getElem_enum l k hk2
    rw [← hget]
    exact List.getElem_mem hk2

theorem pairwise_lt_map_fst_filter_enum {α : Type} (l : List α) (p : ℕ × α → Bool) :
    ((l.enum.filter p).map Prod.fst).Pairwise (· < ·) := by
  have h0 : (l.enum.map Prod.fst).Pairwise (· < ·) := by
    rw [List.enum_map_fst]
    exact List.pairwise_lt_range _
  have h1 : l.enum.Pairwise (fun a b => a.1 < b.1) := List.pairwise_map.mp h0
  exact List.pairwise_map.mpr (h1.filter p)

theorem check_missing_subtitles_eq (audio_segments : List String) (ex : String → Bool) :
    check_missing_subtitles audio_segments ex =
      ⟨(audio_segments.enum.filter fun p => ¬ ex (with_extension p.2 ("srt"))).map Prod.fst,
        (audio_segments.enum.filter fun p => ex (with_extension p.2 ("srt"))).map Prod.fst,
        ¬ ((audio_segments.enum.filter fun p =>
            ¬ ex (with_extension p.2 ("srt"))).map Prod.fst).isEmpty ∧
          ¬ ((audio_segments.enum.filter fun p =>
            ex (with_extension p.2 ("srt"))).map Prod.fst).isEmpty⟩ := by
  cases audio_segments with
  | nil => rfl
  | cons a t => rw [check_missing_subtitles, if_neg (by simp)]

/-! ### C6 -/

/-- C6: completion scanning classifies index `i` as completed exactly when
the companion `.srt` file of the i-th audio segment exists and as missing
otherwise; `can_resume` holds exactly when both lists are non-empty; and the
resume plan is the list of missing indices, strictly ascending, within
bounds, and disjoint from the completed indices. -/
theorem C6_completion_scan (audio_segments : List String) (ex : String → Bool) :
    (∀ i : Fin audio_segments.length,
      (i.1 ∈ (check_missing_subtitles audio_segments ex).completed_segments ↔
        ex (with_extension (audio_segments.get i) ("srt")) = true) ∧
      (i.1 ∈ (check_missing_subtitles audio_segments ex).missing_segments ↔
        ex (with_extension (audio_segments.get i) ("srt")) = false)) ∧
    ((check_missing_subtitles audio_segments ex).can_resume = true ↔
      (check_missing_subtitles audio_segments ex).missing_segments ≠ [] ∧
      (check_missing_subtitles audio_segments ex).completed_segments ≠ []) ∧
    (resume_plan (check_missing_subtitles audio_segments ex) =
      (check_missing_subtitles audio_segments ex).missing_segments) ∧
    (resume_plan (check_missing_subtitles audio_segments ex)).Pairwise (· < ·) ∧
    (∀ k ∈ resume_plan (check_missing_subtitles audio_segments ex),
      k < audio_segments.length) ∧
    (∀ k ∈ resume_plan (check_missing_subtitles audio_segments ex),
      k ∉ (check_missing_subtitles audio_segments ex).completed_segments) := by
  rw [check_missing_subtitles_eq, resume_plan]
  refine ⟨fun i => ⟨?_, ?_⟩, ?_, rfl, ?_, fun k hk => ?_, fun k hk => ?_⟩
  · rw [mem_map_fst_filter_enum, List.get_eq_getElem]
    constructor
    · rintro ⟨h, hp⟩
      exact hp
    · intro h
      exact ⟨i.2, h⟩
  · rw [mem_map_fst_filter_enum, List.get_eq_getElem]
    constructor
    · rintro ⟨h, hp⟩
      simp only [decide_eq_true_eq, Bool.not_eq_true] at hp
      exact hp
    · intro h
      refine ⟨i.2, ?_⟩
      simp only [decide_eq_true_eq, Bool.not_eq_true]
      exact h
  · constructor
    · intro h
      rw [decide_eq_true_eq] at h
      exact ⟨fun he => h.1 (List.isEmpty_iff.mpr he), fun he => h.2 (List.isEmpty_iff.mpr he)⟩
    · rintro ⟨h1, h2⟩
      rw [decide_eq_true_eq]
      exact ⟨fun he => h1 (List.isEmpty_iff.mp he), fun he => h2 (List.isEmpty_iff.mp he)⟩
  · exact pairwise_lt_map_fst_filter_enum _ _
  · rcases (mem_map_fst_filter_enum _ _ _).mp hk with ⟨h, -⟩
    exact h
  · rcases (mem_map_fst_filter_enum _ _ _).mp hk with ⟨h, hp⟩
    simp only [decide_eq_true_eq, Bool.not_eq_true] at hp
    intro hmem
    rcases (mem_map_fst_filter_enum _ _ _).mp hmem with ⟨h2, hp2⟩
    rw [hp] at hp2
    exact Bool.false_ne_true hp2

/-! ### Merge engine: views and the specification-side merge -/

theorem mergeKey_eq_parsedStartQ (e : MergEntry) : mergeKey e = parsedStartQ e := by
  rw [mergeKey, parsedStartQ]
  cases srtm_parse_srt_time e.start_time <;> rfl

theorem merge_reindex_length (l : List MergEntry) : (merge_reindex l).length = l.length := by
  simp [merge_reindex]

theorem merge_reindex_getElem (l : List MergEntry) (i : ℕ)
    (hi : i < (merge_reindex l).length) :
    (merge_reindex l)[i] =
      { l.get ⟨i, by simpa [merge_reindex_length] using hi⟩ with index := i + 1 } := by
  simp [merge_reindex]

theorem merge_reindex_pairwise {l : List MergEntry} (h : l.Pairwise mergeLe) :
    (merge_reindex l).Pairwise mergeLe := by
  rw [merge_reindex, List.pairwise_map]
  have h2 : List.Pairwise (fun a b : ℕ × MergEntry => mergeLe a.2 b.2) l.enum := by
    rw [← List.pairwise_map (f := Prod.snd), List.enum_map_snd]
    exact h
  exact h2.imp fun hab => hab

theorem merge_reindex_map_qview (l : List MergEntry) :
    (merge_reindex l).map qview = l.map qview := by
  rw [merge_reindex, List.map_map]
  have : (qview ∘ fun p : ℕ × MergEntry => { p.2 with index := p.1 + 1 }) =
      qview ∘ Prod.snd := by
    funext p
    rfl
  rw [this, ← List.map_map, List.enum_map_snd]

theorem merge_entries_of_file_ok {off : ℚ} {m : ℕ} (hoff : ((m : ℕ) : ℚ) / 1000 = off) :
    ∀ (es : List MergEntry) (g : ℕ), (∀ e ∈ es, entryTimesMs e) →
    ∃ out, merge_entries_of_file off g es = .ok (out, g + es.length) ∧
      out.map qview = es.map fun e => (parsedStartQ e + off, parsedEndQ e + off, e.text) := by
  intro es
  induction es with
  | nil =>
    intro g _
    refine ⟨[], ?_, rfl⟩
    rw [merge_entries_of_file]
    rfl
  | cons e rest ih =>
    intro g hms
    obtain ⟨⟨n1, h1⟩, ⟨n2, h2⟩⟩ := hms e (by simp)
    obtain ⟨out, hout, hq⟩ := ih (g + 1) (fun x hx => hms x (by simp [hx]))
    refine ⟨⟨g, format_srt_time ((n1 : ℚ) / 1000 + off),
      format_srt_time ((n2 : ℚ) / 1000 + off), e.text⟩ :: out, ?_, ?_⟩
    · rw [merge_entries_of_file]
      simp only [h1, h2, hout]
      rw [show g + 1 + rest.length = g + (e :: rest).length from by
        simp only [List.length_cons]; omega]
    · have hn1 : ((n1 + m : ℕ) : ℚ) / 1000 = (n1 : ℚ) / 1000 + off := by
        rw [← hoff]
        push_cast
        ring
      have hn2 : ((n2 + m : ℕ) : ℚ) / 1000 = (n2 : ℚ) / 1000 + off := by
        rw [← hoff]
        push_cast
        ring
      have hhead : qview ⟨g, format_srt_time ((n1 : ℚ) / 1000 + off),
          format_srt_time ((n2 : ℚ) / 1000 + off), e.text⟩ =
          (parsedStartQ e + off, parsedEndQ e + off, e.text) := by
        simp only [qview, parsedStartQ, parsedEndQ]
        rw [srtm_parse_fmt_q hn1, srtm_parse_fmt_q hn2, h1, h2]
        rfl
      rw [List.map_cons, List.map_cons, hq, hhead]

theorem merge_collect_ok (fs : FileSys) (table : List ℚ)
    (htab : ∀ q ∈ table, ∃ n : ℕ, ((n : ℕ) : ℚ) / 1000 = q) :
    ∀ (files : List String) (sidx g : ℕ),
      sidx + files.length ≤ table.length →
      (∀ f ∈ files, ∃ es, srtm_parse_srt_file fs f = .ok es ∧ ∀ e ∈ es, entryTimesMs e) →
      ∃ out g2, merge_collect fs table files sidx g = .ok (out, g2) ∧
        out.map qview = ((files.zip (table.drop sidx)).map fun fp =>
          match srtm_parse_srt_file fs fp.1 with
          | .ok es => es.map fun e => (parsedStartQ e + fp.2, parsedEndQ e + fp.2, e.text)
          | .error _ => []).flatten := by
  intro files
  induction files with
  | nil =>
    intro sidx g _ _
    exact ⟨[], g, by rw [merge_collect], by simp⟩
  | cons f rest ih =>
    intro sidx g hlen hfs
    obtain ⟨es, hf, hms⟩ := hfs f (by simp)
    have hsidx : sidx < table.length := by
      simp only [List.length_cons] at hlen
      omega
    obtain ⟨m, hm⟩ := htab table[sidx] (List.getElem_mem hsidx)
    obtain ⟨out1, h1, hq1⟩ := merge_entries_of_file_ok hm es g hms
    obtain ⟨out2, g2, h2, hq2⟩ := ih (sidx + 1) (g + es.length)
      (by simp only [List.length_cons] at hlen ⊢; omega)
      (fun x hx => hfs x (by simp [hx]))
    have hget : table.get? sidx = some table[sidx] := by
      rw [List.get?_eq_getElem?, List.getElem?_eq_getElem hsidx]
    refine ⟨out1 ++ out2, g2, ?_, ?_⟩
    · simp only [merge_collect, hf, hget, h1, h2]
    · rw [List.map_append, hq1, hq2, List.drop_eq_getElem_cons hsidx]
      simp only [List.zip_cons_cons, List.map_cons, List.flatten_cons, hf]

theorem merge_collect_no_panic (fs : FileSys) (table : List ℚ) :
    ∀ (files : List String) (sidx g : ℕ), sidx + files.length ≤ table.length →
      merge_collect fs table files sidx g ≠ .panic := by
  intro files
  induction files with
  | nil =>
    intro sidx g _
    rw [merge_collect]
    exact fun h => MergeRes.noConfusion h
  | cons f rest ih =>
    intro sidx g hlen
    have hsidx : sidx < table.length := by
      simp only [List.length_cons] at hlen
      omega
    have hget : table.get? sidx = some table[sidx] := by
      rw [List.get?_eq_getElem?, List.getElem?_eq_getElem hsidx]
    rcases hf : srtm_parse_srt_file fs f with u | es
    · simp only [merge_collect, hf]
      exact fun h => MergeRes.noConfusion h
    · rcases hm : merge_entries_of_file table[sidx] g es with u | ⟨es2, g2⟩
      · simp only [merge_collect, hf, hget, hm]
        exact fun h => MergeRes.noConfusion h
      · have h3 := ih (sidx + 1) g2 (by simp only [List.length_cons] at hlen ⊢; omega)
        rcases hc : merge_collect fs table rest (sidx + 1) g2 with _ | _ | ⟨es3, g3⟩
        · exact absurd hc h3
        · simp only [merge_collect, hf, hget, hm, hc]
          exact fun h => MergeRes.noConfusion h
        · simp only [merge_collect, hf, hget, hm, hc]
          exact fun h => MergeRes.noConfusion h

theorem merge_core_spec (fs : FileSys) (srt_files : List String) (cut_points : List ℚ)
    (hlen : srt_files.length ≤ cut_points.length + 1)
    (hfiles : ∀ f ∈ srt_files,
      ∃ es, srtm_parse_srt_file fs f = .ok es ∧ ∀ e ∈ es, entryTimesMs e)
    (hcps : ∀ q ∈ cut_points, ∃ n : ℕ, ((n : ℕ) : ℚ) / 1000 = q) :
    ∃ merged, merge_core fs srt_files cut_points = .ok merged ∧
      (merged.map qview).Perm (mergeFragmentsSpec fs srt_files cut_points) ∧
      merged.Pairwise mergeLe ∧
      ∀ i : Fin merged.length, (merged.get i).index = i.1 + 1 := by
  have htab : ∀ q ∈ (0 : ℚ) :: cut_points, ∃ n : ℕ, ((n : ℕ) : ℚ) / 1000 = q := by
    intro q hq
    rcases List.mem_cons.mp hq with rfl | hq
    · exact ⟨0, by norm_num⟩
    · exact hcps q hq
  obtain ⟨out, g2, hco, hqv⟩ := merge_collect_ok fs ((0 : ℚ) :: cut_points) htab srt_files 0 1
    (by simpa using hlen) hfiles
  refine ⟨merge_reindex (out.insertionSort mergeLe), ?_, ?_, ?_, fun i => ?_⟩
  · simp only [merge_core, hco]
  · rw [merge_reindex_map_qview, mergeFragmentsSpec]
    have hperm : ((out.insertionSort mergeLe).map qview).Perm (out.map qview) :=
      (List.perm_insertionSort mergeLe out).map qview
    rw [hqv, List.drop_zero] at hperm
    exact hperm
  · exact merge_reindex_pairwise (List.sorted_insertionSort mergeLe out)
  · rcases i with ⟨i, hi⟩
    simp only [List.get_eq_getElem]
    rw [merge_reindex_getElem]

theorem fragment_no_newline : ∀ l ∈ fragmentLines, ∀ c ∈ l, c ≠ '\n' := by
  intro l hl
  rw [fragmentLines] at hl
  simp only [List.mem_cons, List.not_mem_nil, or_false] at hl
  rcases hl with rfl | rfl | rfl
  · decide
  · exact timeLine12_no_newline
  · decide

theorem fragment_lines_merg :
    srtm_parse_lines fragmentLines none [] =
      [⟨1, format_srt_time 1, format_srt_time 2, [['h', 'i']]⟩] := by
  rw [fragmentLines]
  rw [sm_index _ none [] (by decide) (show parseUsize (trimChars ['1']) = some 1 from by decide)]
  rw [sm_time _ []
    (by rw [timeLine12_trim]; exact timeLine_isEmpty_false (fmt_q_ne_nil hq_one))
    (by rw [timeLine12_trim]
        exact parseUsize_timeLine_none (fmt_q_mem hq_one) (fmt_q_ne_nil hq_one))
    (by rw [timeLine12_trim]; exact timeLineChars_arrow _ _)
    (by rw [timeLine12_trim]
        exact timeLineChars_split (fmt_q_no_dash hq_one) (fmt_q_no_dash hq_two))
    (by rw [trimChars_append_space (fmt_q_not_ws hq_one)]; exact fmt_q_ne_nil hq_one)
    (by rw [trimChars_cons_space (fmt_q_not_ws hq_two)]; exact fmt_q_ne_nil hq_two)]
  rw [trimChars_append_space (fmt_q_not_ws hq_one), trimChars_cons_space (fmt_q_not_ws hq_two)]
  rw [sm_text _ _ (by decide) (by decide) (by decide) (fmt_q_ne_nil hq_one)]
  rw [sm_nil_some_full _ (fmt_q_ne_nil hq_one) (fmt_q_ne_nil hq_two)]
  rw [show trimChars ['h', 'i'] = ['h', 'i'] from by decide]
  simp

theorem fragment_parse (f : String) :
    srtm_parse_srt_file fragmentFS f =
      .ok [⟨1, format_srt_time 1, format_srt_time 2, [['h', 'i']]⟩] := by
  rw [srtm_parse_srt_file]
  simp only [fragmentFS]
  rw [rustLines_render_lines fragment_no_newline]
  exact congrArg Except.ok fragment_lines_merg

theorem fragment_entry_times :
    entryTimesMs ⟨1, format_srt_time 1, format_srt_time 2, [['h', 'i']]⟩ := by
  refine ⟨⟨1000, ?_⟩, ⟨2000, ?_⟩⟩
  · rw [hq_one]
    exact srtm_parse_fmt_q hq_one
  · rw [hq_two]
    exact srtm_parse_fmt_q hq_two

theorem parsedStartQ_fragment :
    parsedStartQ ⟨1, format_srt_time 1, format_srt_time 2, [['h', 'i']]⟩ = 1 := by
  rw [parsedStartQ]
  simp only [srtm_parse_fmt_q hq_one]
  rfl

theorem parsedEndQ_fragment :
    parsedEndQ ⟨1, format_srt_time 1, format_srt_time 2, [['h', 'i']]⟩ = 2 := by
  rw [parsedEndQ]
  simp only [srtm_parse_fmt_q hq_two]
  rfl

theorem mergeFragmentsSpec_concrete :
    mergeFragmentsSpec fragmentFS ["seg0.srt", "seg1.srt", "seg2.srt"] [10, 25] =
      [((1 : ℚ), (2 : ℚ), [['h', 'i']]), (11, 12, [['h', 'i']]), (26, 27, [['h', 'i']])] := by
  rw [mergeFragmentsSpec]
  simp only [List.zip_cons_cons, List.zip_nil_right, List.map_cons, List.map_nil,
    fragment_parse, List.flatten_cons, List.flatten_nil, parsedStartQ_fragment,
    parsedEndQ_fragment]
  norm_num

/-! ### C1 -/

/-- C1: `merge_srt_files` shifts each fragment's entries by that fragment's
segment start offset (the positionally aligned sequence `0, cutPoint1, ...`),
concatenates them, sorts by start ascending and renumbers indices from 1 —
stated for readable fragments whose entries carry whole-millisecond
timestamps, with at most one more fragment than there are cut points; in
particular, for three single-entry fragments `00:00:01,000 --> 00:00:02,000`
and offsets `[0, 10, 25]` the merged track has exactly three entries with
starts `1, 11, 26`, sorted ascending, with indices `1, 2, 3`. -/
theorem C1_merge_shift_concat_sort_reindex :
    (∀ (fs : FileSys) (srt_files : List String) (cut_points : List ℚ),
      srt_files.length ≤ cut_points.length + 1 →
      (∀ f ∈ srt_files,
        ∃ es, srtm_parse_srt_file fs f = .ok es ∧ ∀ e ∈ es, entryTimesMs e) →
      (∀ q ∈ cut_points, ∃ n : ℕ, ((n : ℕ) : ℚ) / 1000 = q) →
      ∃ merged, merge_core fs srt_files cut_points = .ok merged ∧
        (merged.map qview).Perm (mergeFragmentsSpec fs srt_files cut_points) ∧
        merged.Pairwise mergeLe ∧
        ∀ i : Fin merged.length, (merged.get i).index = i.1 + 1) ∧
    (∃ merged,
      merge_core fragmentFS ["seg0.srt", "seg1.srt", "seg2.srt"] [10, 25] = .ok merged ∧
      merged.map parsedStartQ = [1, 11, 26] ∧
      merged.map MergEntry.index = [1, 2, 3]) := by
  refine ⟨merge_core_spec, ?_⟩
  have hfiles3 : ∀ f ∈ (["seg0.srt", "seg1.srt", "seg2.srt"] : List String),
      ∃ es, srtm_parse_srt_file fragmentFS f = .ok es ∧ ∀ e ∈ es, entryTimesMs e := by
    intro f _
    refine ⟨_, fragment_parse f, ?_⟩
    intro e he
    rw [List.mem_singleton] at he
    subst he
    exact fragment_entry_times
  have hcps3 : ∀ q ∈ ([10, 25] : List ℚ), ∃ n : ℕ, ((n : ℕ) : ℚ) / 1000 = q := by
    intro q hq
    rcases List.mem_cons.mp hq with rfl | hq
    · exact ⟨10000, by norm_num⟩
    · rw [List.mem_singleton] at hq
      subst hq
      exact ⟨25000, by norm_num⟩
  obtain ⟨merged, hok, hperm, hsorted, hidx⟩ := merge_core_spec fragmentFS
    ["seg0.srt", "seg1.srt", "seg2.srt"] [10, 25] (by norm_num) hfiles3 hcps3
  rw [mergeFragmentsSpec_concrete] at hperm
  have hmapmap : merged.map parsedStartQ = (merged.map qview).map fun p => p.1 := by
    rw [List.map_map]
    rfl
  have hpermS : (merged.map parsedStartQ).Perm [(1 : ℚ), 11, 26] := by
    rw [hmapmap]
    have h5 := hperm.map fun p : ℚ × ℚ × List (List Char) => p.1
    simpa using h5
  have hsortS : (merged.map parsedStartQ).Pairwise (· ≤ ·) := by
    rw [List.pairwise_map]
    refine hsorted.imp ?_
    intro a b hab
    rw [mergeLe, mergeKey_eq_parsedStartQ, mergeKey_eq_parsedStartQ] at hab
    exact hab
  have hstarts : merged.map parsedStartQ = [1, 11, 26] := by
    refine List.eq_of_perm_of_sorted hpermS hsortS ?_
    norm_num [List.pairwise_cons]
  have hlen3 : merged.length = 3 := by
    have h6 := congrArg List.length hstarts
    simpa using h6
  refine ⟨merged, hok, hstarts, ?_⟩
  refine List.ext_getElem (by simp [hlen3]) ?_
  intro i h1 h2
  rw [List.getElem_map]
  have hi : i < merged.length := by
    rw [List.length_map] at h1
    exact h1
  have hidx2 := hidx ⟨i, hi⟩
  rw [List.get_eq_getElem] at hidx2
  rw [hidx2]
  have h3 : i < 3 := by simpa using h2
  interval_cases i <;> rfl

theorem C1_merge_shift_concat_sort_reindex_witness :
    ∃ merged, merge_core fragmentFS ["w0.srt", "w1.srt"] [7] = .ok merged ∧
      (merged.map qview).Perm (mergeFragmentsSpec fragmentFS ["w0.srt", "w1.srt"] [7]) ∧
      merged.Pairwise mergeLe ∧
      ∀ i : Fin merged.length, (merged.get i).index = i.1 + 1 :=
  C1_merge_shift_concat_sort_reindex.1 fragmentFS ["w0.srt", "w1.srt"] [7]
    (by decide)
    (fun f _ => ⟨_, fragment_parse f, fun e he => by
      rw [List.mem_singleton] at he
      subst he
      exact fragment_entry_times⟩)
    (fun q hq => by
      rw [List.mem_singleton] at hq
      subst hq
      exact ⟨7000, by norm_num⟩)

/-! ### C10 -/

/-- C10 counterexample: with two fragment files and no cut points — more
fragment files than the offset table has entries — the `Err` branch is still
reached when the first file cannot be read, so a call with too many files
does not always hit the out-of-bounds lookup. -/
theorem C10_counterexample_err_reachable :
    merge_core (fun _ => none) ["a", "b"] [] = .err ∧
    ¬ (["a", "b"] : List String).length ≤ ([] : List ℚ).length + 1 := by
  constructor
  · rfl
  · decide

/-- C10: corrected — the offset table is `[0.0] ++ cut_points`, indexed by
fragment position, and with at most `len(cut_points) + 1` fragment files the
merge never panics; beyond that bound a panic does occur when every fragment
is readable (two readable fragments, no cut points), but the claim that the
error branch is never reached with too many files is false: an unreadable
early fragment still returns `Err`. -/
theorem C10_offset_table_bound :
    (∀ (fs : FileSys) (srt_files : List String) (cut_points : List ℚ),
      srt_files.length ≤ cut_points.length + 1 →
      merge_core fs srt_files cut_points ≠ .panic) ∧
    merge_core fragmentFS ["a.srt", "b.srt"] [] = .panic := by
  constructor
  · intro fs srt_files cut_points h
    rcases hc : merge_collect fs ((0 : ℚ) :: cut_points) srt_files 0 1 with _ | _ | p
    · exact absurd hc (merge_collect_no_panic fs _ srt_files 0 1 (by simpa using h))
    · simp only [merge_core, hc]
      exact fun h2 => MergeRes.noConfusion h2
    · obtain ⟨es, g⟩ := p
      simp only [merge_core, hc]
      exact fun h2 => MergeRes.noConfusion h2
  · have hms1 : ∀ e ∈ [(⟨1, format_srt_time 1, format_srt_time 2, [['h', 'i']]⟩ : MergEntry)],
        entryTimesMs e := by
      intro e he
      rw [List.mem_singleton] at he
      subst he
      exact fragment_entry_times
    obtain ⟨out1, hm, -⟩ := merge_entries_of_file_ok
      (show ((0 : ℕ) : ℚ) / 1000 = (0 : ℚ) from by norm_num) _ 1 hms1
    simp only [merge_core, merge_collect, fragment_parse, List.get?_cons_zero,
      List.get?_cons_succ, List.get?_nil, hm]

theorem C10_offset_table_bound_witness :
    ((["x.srt"] : List String).length ≤ ([] : List ℚ).length + 1) ∧
    merge_core (fun _ => none) ["x.srt"] [] ≠ .panic :=
  ⟨by decide, C10_offset_table_bound.1 (fun _ => none) ["x.srt"] [] (by decide)⟩

/-! ### C7 -/

theorem merge_entries_single :
    merge_entries_of_file 0 1 [⟨1, format_srt_time 1, format_srt_time 2, [['h', 'i']]⟩] =
      .ok ([⟨1, format_srt_time ((1 : ℚ) + 0), format_srt_time ((2 : ℚ) + 0), [['h', 'i']]⟩],
        2) := by
  rw [merge_entries_of_file]
  simp only [srtm_parse_fmt_q hq_one, srtm_parse_fmt_q hq_two]
  rfl

theorem merge_core_single :
    merge_core fragmentFS ["a.srt"] [] =
      .ok [⟨1, format_srt_time ((1 : ℚ) + 0), format_srt_time ((2 : ℚ) + 0), [['h', 'i']]⟩] := by
  simp only [merge_core, merge_collect, fragment_parse, List.get?_cons_zero,
    merge_entries_single]
  rfl

/-- C7 counterexample: the output path previously holds the non-empty
fragment content; the merge itself succeeds, `File::create` truncates the
output, and the very first `writeln!` fails — the run returns `Err` with the
output file rewritten to empty content, so a failed merge does leave a
clobbered, half-written output file. -/
theorem C7_counterexample_truncated_output :
    fragmentFS "out.srt" = some (render_lines fragmentLines) ∧
    render_lines fragmentLines ≠ [] ∧
    (merge_srt_files_run fragmentFS ["a.srt"] [] "out.srt" (fun _ => false)).2 = .err ∧
    (merge_srt_files_run fragmentFS ["a.srt"] [] "out.srt" (fun _ => false)).1 "out.srt" =
      some [] := by
  refine ⟨rfl, ?_, ?_, ?_⟩
  · rw [fragmentLines]
    simp [render_lines]
  · simp only [merge_srt_files_run, merge_core_single]
    rfl
  · simp only [merge_srt_files_run, merge_core_single]
    rfl

/-- C7: corrected — when the merge itself fails (unreadable fragment,
unparseable timestamp, or out-of-bounds offset lookup) the file system, and
in particular any previously existing file at the output path, is untouched,
and a run in which every write succeeds stores the complete serialization of
the merged track; but the output is written incrementally after
`File::create` truncates it, so a failed write can leave a half-written
output file. -/
theorem C7_failed_merge_leaves_fs :
    (∀ (fs : FileSys) (srt_files : List String) (cut_points : List ℚ)
        (out : String) (w : ℕ → Bool),
      (∀ entries, merge_core fs srt_files cut_points ≠ .ok entries) →
      (merge_srt_files_run fs srt_files cut_points out w).1 = fs) ∧
    (∀ (fs : FileSys) (srt_files : List String) (cut_points : List ℚ)
        (out : String) (w : ℕ → Bool) (entries : List MergEntry),
      merge_core fs srt_files cut_points = .ok entries →
      (merge_srt_files_run fs srt_files cut_points out w).2 = .ok () →
      (merge_srt_files_run fs srt_files cut_points out w).1 out =
        some (render_lines (merge_output_lines entries))) := by
  constructor
  · intro fs srt_files cut_points out w h
    rcases hc : merge_core fs srt_files cut_points with _ | _ | entries
    · simp only [merge_srt_files_run, hc]
    · simp only [merge_srt_files_run, hc]
    · exact absurd hc (h entries)
  · intro fs srt_files cut_points out w entries hc hok
    simp only [merge_srt_files_run, hc] at hok ⊢
    rcases hf : (List.range (merge_output_lines entries).length).find? (fun k => ¬ w k)
      with _ | k
    · simp only [hf]
      simp [fs_update]
    · simp only [hf] at hok
      exact MergeRes.noConfusion hok

theorem C7_failed_merge_leaves_fs_witness :
    (merge_srt_files_run (fun _ => none) ["z.srt"] [] "o.srt" (fun _ => true)).1 =
      (fun _ => none : FileSys) :=
  C7_failed_merge_leaves_fs.1 (fun _ => none) ["z.srt"] [] "o.srt" (fun _ => true)
    (fun entries h => by
      rw [show merge_core (fun _ => none : FileSys) ["z.srt"] [] = MergeRes.err from rfl] at h
      exact MergeRes.noConfusion h)
